import Mathlib

set_option maxRecDepth 4000000

/-!
Shallow embedding of the Koper_Game tournament engine
(src/main.py `play_match` and src/engine_core.py).

Modelling conventions:
* Python floats are modelled as exact rationals (`ℚ`).  All amounts in the
  source are produced by +, -, *, /, min, max on decimal literals, so the
  rational semantics is the intended real-number semantics of the code.
* The `treys` hand evaluator is an external library (the spec calls it the
  external hand-ranking oracle), so the score of a concrete 5-card combo is a
  parameter `evalFive : List Card → ℕ`; `evaluate_best_hand` itself (which
  lives in src/engine_core.py) is embedded concretely on top of it.
* `random.shuffle` outcomes are parameters: the per-game shuffled deck
  (`Env.shuffledDeck`) and the per-trial shuffle of the equity estimator
  (`shuffle : ℕ → List Card → List Card`).
* Strategies are external collaborators behind the interface of spec §6; a
  strategy is a pure function of the game number (standing for whatever
  internal state `initialize_game` built from the history) and of the exact
  observation tuple the engine passes at each call site.  The raw return
  value is untrusted, exactly as in the source.
* Python `list.pop()` removes the last element; `deckPop` mirrors that.
-/

/-- Cards are the strings of `engine_core.py` (for example "Ah", "Tc"). -/
abbrev Card := String

/-- engine_core.py: NUM_GAMES = 50. -/
def NUM_GAMES : ℕ := 50

/-- engine_core.py: STARTING_STACK = 10000. -/
def STARTING_STACK : ℚ := 10000

/-- engine_core.py: BUY_IN = 100. -/
def BUY_IN : ℚ := 100

/-- engine_core.py: SUITS = ['h', 'd', 's', 'c']. -/
def SUITS : List String := ["h", "d", "s", "c"]

/-- engine_core.py: RANKS = ['2',...,'A']. -/
def RANKS : List String := ["2", "3", "4", "5", "6", "7", "8", "9", "T", "J", "Q", "K", "A"]

/-- engine_core.py `create_deck`: [r + s for s in SUITS for r in RANKS]
(suits outermost). -/
def create_deck : List Card := SUITS.flatMap (fun s => RANKS.map (fun r => r ++ s))

/-- engine_core.py `get_clean_deck`: [r + s for r in ranks for s in suits]
(ranks outermost). -/
def get_clean_deck : List Card := RANKS.flatMap (fun r => SUITS.map (fun s => r ++ s))

/-- engine_core.py `PlayerState`; `name`, `strategy` and `index` are carried
by position in the engine's player list. -/
structure PlayerState where
  stack : ℚ
  is_lost_match : Bool
  hole_cards : List Card
  current_bet_r1 : ℚ
  current_bet_r2 : ℚ
  final_round_bet : ℚ
  has_folded : Bool
  hand_score : ℕ
  round_equities : List ℚ
deriving DecidableEq, Repr

/-- The all-zero player record, used as the out-of-range default for list
lookups (the source never indexes out of range). -/
def dummyPlayer : PlayerState :=
  { stack := 0, is_lost_match := false, hole_cards := [], current_bet_r1 := 0,
    current_bet_r2 := 0, final_round_bet := 0, has_folded := false,
    hand_score := 0, round_equities := [] }

/-- engine_core.py `PlayerState.reset_round`. -/
def resetRound (p : PlayerState) : PlayerState :=
  { p with hole_cards := [], current_bet_r1 := 0, current_bet_r2 := 0,
           final_round_bet := 0, hand_score := 0, has_folded := false,
           round_equities := [] }

/-- One per-seat snapshot inside a hand-history entry (main.py builds these
dicts at lines 198-205, 236-243 and 351-358). -/
structure PlayerRecord where
  hole_cards : List Card
  final_score : ℕ
  folded : Bool
  final_bet : ℚ
  equities : List ℚ
  stack : ℚ
deriving DecidableEq, Repr

/-- One completed hand's history entry: the per-seat dict (keyed by player
index), the revealed community cards and the final pot. -/
structure HandHistory where
  records : List (ℕ × PlayerRecord)
  community_cards : List Card
  pot_final : ℚ
deriving DecidableEq, Repr

/-- The cross-hand state of `play_match`: player ledgers, match history and
the fractional win counters. -/
structure MatchState where
  players : List PlayerState
  history : List HandHistory
  wins : List ℚ
deriving DecidableEq, Repr

/-- The strategy interface of spec §6.  The first argument is the 1-based
game number (the information `initialize_game` conveys); the remaining
arguments are exactly what `play_match` passes.  `round1` returns `none`
for a fold and `some v` for a raw bet of `v`. -/
structure Strategy where
  round1 : ℕ → List Card → List Card → List ℚ → ℚ → ℚ → Option ℚ
  round2 : ℕ → List Card → List Card → List ℚ → List ℚ → ℚ → ℚ → ℚ
  round3 : ℕ → List Card → List Card → List ℚ → List ℚ → List ℚ → ℚ → ℚ → ℚ

/-- A strategy that always folds round 1 and returns 0 otherwise; the
out-of-range default for strategy lookups (never reached by the source). -/
def dummyStrategy : Strategy :=
  { round1 := fun _ _ _ _ _ _ => none,
    round2 := fun _ _ _ _ _ _ _ => 0,
    round3 := fun _ _ _ _ _ _ _ _ => 0 }

/-- The external collaborators of one match: the shuffled deck of each game,
the seat strategies, the treys 5-card evaluator, and the value returned by
the (randomized) equity estimator at each call site `(game, hole, board,
num_players)`.  The equity value only feeds strategies and the logged
equity sequences; no engine control flow depends on it. -/
structure Env where
  shuffledDeck : ℕ → List Card
  strategies : List Strategy
  evalFive : List Card → ℕ
  equityOf : ℕ → List Card → List Card → ℕ → ℚ

/-- Python `deck.pop()`: remove and return the LAST element. -/
def deckPop (d : List Card) : Card × List Card :=
  match d.getLast? with
  | none => ("", [])
  | some c => (c, d.dropLast)

/-- `n` successive `deck.pop()` calls, in pop order. -/
def popN : ℕ → List Card → List Card × List Card
  | 0, d => ([], d)
  | k + 1, d =>
    ((deckPop d).1 :: (popN k (deckPop d).2).1, (popN k (deckPop d).2).2)

/-- main.py lines 85-106: the Round 0 buy-in loop over all seats, in seat
order.  State: (players, pot, deck, active_players_indices). -/
def buyInLoop (idxs : List ℕ) (players : List PlayerState) (pot : ℚ)
    (deal : List Card) (active : List ℕ) :
    List PlayerState × ℚ × List Card × List ℕ :=
  match idxs with
  | [] => (players, pot, deal, active)
  | i :: rest =>
    let p := resetRound (players.getD i dummyPlayer)
    if p.is_lost_match then
      buyInLoop rest (players.set i p) pot deal active
    else if p.stack < BUY_IN then
      buyInLoop rest (players.set i { p with stack := 0, is_lost_match := true })
        (pot + p.stack) deal active
    else
      buyInLoop rest
        (players.set i { p with stack := p.stack - BUY_IN,
                                hole_cards := [(deckPop deal).1, (deckPop (deckPop deal).2).1] })
        (pot + BUY_IN) (deckPop (deckPop deal).2).2 (active ++ [i])

/-- main.py lines 128-137: the Round 1 affordability check; forfeits the
stack of anyone below the minimum bet of 100 and eliminates them. -/
def r1ElimLoop (idxs : List ℕ) (players : List PlayerState) (pot : ℚ)
    (r1active : List ℕ) : List PlayerState × ℚ × List ℕ :=
  match idxs with
  | [] => (players, pot, r1active)
  | i :: rest =>
    let p := players.getD i dummyPlayer
    if p.stack < 100 then
      r1ElimLoop rest (players.set i { p with stack := 0, is_lost_match := true })
        (pot + p.stack) r1active
    else
      r1ElimLoop rest players pot (r1active ++ [i])

/-- main.py lines 143-172: the Round 1 action loop.  `nAct` is
`len(round1_active_indices)`, `cs` the stack snapshot of line 126.
State: (players, pot, r1_bets). -/
def r1Loop (env : Env) (g : ℕ) (visible : List Card) (cs : List ℚ) (nAct : ℕ)
    (idxs : List ℕ) (players : List PlayerState) (pot : ℚ) (r1bets : List ℚ) :
    List PlayerState × ℚ × List ℚ :=
  match idxs with
  | [] => (players, pot, r1bets)
  | i :: rest =>
    let p := players.getD i dummyPlayer
    let win_prob := env.equityOf g p.hole_cards visible nAct
    match (env.strategies.getD i dummyStrategy).round1 g p.hole_cards visible cs pot win_prob with
    | none =>
      r1Loop env g visible cs nAct rest
        (players.set i { p with has_folded := true,
                                round_equities := p.round_equities ++ [win_prob] })
        pot r1bets
    | some val =>
      let price := max 100 (min 300 val)
      let price2 := min price p.stack
      r1Loop env g visible cs nAct rest
        (players.set i { p with current_bet_r1 := price2, stack := p.stack - price2,
                                round_equities := p.round_equities ++ [win_prob] })
        (pot + price2) (r1bets.set i price2)

/-- main.py lines 254-280: the Round 2 betting loop (no fold option; bets
clamped to [0.5, 1.5] x own round-1 bet, then capped at stack). -/
def r2Loop (env : Env) (g : ℕ) (visible : List Card) (r1bets cs : List ℚ)
    (nAct : ℕ) (idxs : List ℕ) (players : List PlayerState) (pot : ℚ)
    (r2bets : List ℚ) : List PlayerState × ℚ × List ℚ :=
  match idxs with
  | [] => (players, pot, r2bets)
  | i :: rest =>
    let p := players.getD i dummyPlayer
    let win_prob := env.equityOf g p.hole_cards visible nAct
    let val := (env.strategies.getD i dummyStrategy).round2 g p.hole_cards visible r1bets cs pot win_prob
    let min_p := p.current_bet_r1 * (1 / 2)
    let max_p := p.current_bet_r1 * (3 / 2)
    let price := max min_p (min max_p val)
    let price2 := min price p.stack
    r2Loop env g visible r1bets cs nAct rest
      (players.set i { p with current_bet_r2 := price2, stack := p.stack - price2,
                              round_equities := p.round_equities ++ [win_prob] })
      (pot + price2) (r2bets.set i price2)

/-- main.py lines 295-321: the Round 3 betting loop (bets clamped to
[0.75, 1.25] x own round-2 bet, then capped at stack).  `r3bets` is a ghost
record of the applied round-3 bets, built exactly like `r2_bets`. -/
def r3Loop (env : Env) (g : ℕ) (visible : List Card) (r1bets r2bets cs : List ℚ)
    (nAct : ℕ) (idxs : List ℕ) (players : List PlayerState) (pot : ℚ)
    (r3bets : List ℚ) : List PlayerState × ℚ × List ℚ :=
  match idxs with
  | [] => (players, pot, r3bets)
  | i :: rest =>
    let p := players.getD i dummyPlayer
    let win_prob := env.equityOf g p.hole_cards visible nAct
    let val := (env.strategies.getD i dummyStrategy).round3 g p.hole_cards visible r1bets r2bets cs pot win_prob
    let min_p := p.current_bet_r2 * (3 / 4)
    let max_p := p.current_bet_r2 * (5 / 4)
    let price := max min_p (min max_p val)
    let price2 := min price p.stack
    r3Loop env g visible r1bets r2bets cs nAct rest
      (players.set i { p with final_round_bet := price2, stack := p.stack - price2,
                              round_equities := p.round_equities ++ [win_prob] })
      (pot + price2) (r3bets.set i price2)

/-- engine_core.py `evaluate_best_hand`: best (minimum) oracle score over
all 5-card combinations, starting from the sentinel 7463.  The source's
try/except only guards card parsing, which a total oracle has no need of. -/
def evaluate_best_hand (evalFive : List Card → ℕ) (seven_cards : List Card) : ℕ :=
  ((seven_cards.sublistsLen 5).map evalFive).foldl min 7463

/-- engine_core.py `evaluate_hand`. -/
def evaluate_hand (evalFive : List Card → ℕ) (hole_cards community_cards : List Card) : ℕ :=
  evaluate_best_hand evalFive (hole_cards ++ community_cards)

/-- main.py lines 333-358: the showdown evaluation loop over
`active_players_indices`.  State: (players, best_score, winners, records). -/
def showdownLoop (evalFive : List Card → ℕ) (community : List Card)
    (idxs : List ℕ) (players : List PlayerState) (best : ℕ) (winners : List ℕ)
    (records : List (ℕ × PlayerRecord)) :
    List PlayerState × ℕ × List ℕ × List (ℕ × PlayerRecord) :=
  match idxs with
  | [] => (players, best, winners, records)
  | i :: rest =>
    let p := players.getD i dummyPlayer
    if p.has_folded then
      showdownLoop evalFive community rest players best winners
        (records ++ [(i, { hole_cards := p.hole_cards, final_score := 0,
                           folded := true, final_bet := p.final_round_bet,
                           equities := p.round_equities, stack := p.stack })])
    else
      let score := evaluate_hand evalFive p.hole_cards community
      let players2 := players.set i { p with hand_score := score }
      let rec2 : ℕ × PlayerRecord :=
        (i, { hole_cards := p.hole_cards, final_score := score, folded := false,
              final_bet := p.final_round_bet, equities := p.round_equities,
              stack := p.stack })
      if score < best then
        showdownLoop evalFive community rest players2 score [i] (records ++ [rec2])
      else if score = best then
        showdownLoop evalFive community rest players2 best (winners ++ [i]) (records ++ [rec2])
      else
        showdownLoop evalFive community rest players2 best winners (records ++ [rec2])

/-- main.py lines 369-379: the payout loop over the winner set.  `share` is
`winning_pot_share_max`, `nw` is `num_winners`.  `payouts` is a ghost
per-seat record of `actual_win_for_winner`.
State: (players, no_of_wins, total_win, payouts). -/
def payoutLoop (share : ℚ) (nw : ℕ) (ws : List ℕ) (players : List PlayerState)
    (wins : List ℚ) (total_win : ℚ) (payouts : List ℚ) :
    List PlayerState × List ℚ × ℚ × List ℚ :=
  match ws with
  | [] => (players, wins, total_win, payouts)
  | w :: rest =>
    let p := players.getD w dummyPlayer
    let winning_cap := 4 * (BUY_IN + p.current_bet_r1 + p.current_bet_r2 + p.final_round_bet)
    let actual := min winning_cap share
    payoutLoop share nw rest
      (players.set w { p with stack := p.stack + actual })
      (wins.set w (wins.getD w 0 + 1 / (nw : ℚ)))
      (total_win + actual) (payouts.set w actual)

/-- main.py lines 365-379: `num_winners`, `winning_pot_share_max` and the
payout loop. -/
def runPayouts (pot : ℚ) (winners : List ℕ) (players : List PlayerState)
    (wins : List ℚ) : List PlayerState × List ℚ × ℚ × List ℚ :=
  payoutLoop (pot / (winners.length : ℚ)) winners.length winners players wins 0
    (List.replicate players.length 0)

/-- main.py lines 404-407: add `share` to every recipient's stack. -/
def redistribute (idxs : List ℕ) (share : ℚ) (players : List PlayerState) :
    List PlayerState :=
  match idxs with
  | [] => players
  | i :: rest =>
    let p := players.getD i dummyPlayer
    redistribute rest share (players.set i { p with stack := p.stack + share })

/-- main.py lines 195-208 and 232-246: the truncated per-seat history dict
(dummy score 7463, final_bet 0), built for ALL seats. -/
def truncRecords (players : List PlayerState) : List (ℕ × PlayerRecord) :=
  (List.range players.length).map (fun i =>
    let p := players.getD i dummyPlayer
    (i, { hole_cards := p.hole_cards, final_score := 7463, folded := p.has_folded,
          final_bet := 0, equities := p.round_equities, stack := p.stack }))

/-- Which exit a hand took: `halted` is the `break` of line 113-115, `early`
the fold-equity win, `truncated` the empty-round-2 exit of lines 230-251,
`noR3`/`noWinner` the history-less `continue`s of lines 292-293 and 360-362,
`showdown` the full pipeline. -/
inductive HandKind where
  | halted | early | truncated | noR3 | noWinner | showdown
deriving DecidableEq, Repr

/-- Ghost observations of one hand's execution, read off the source's own
variables: the final pot, the total amount paid to winners, the total stack
increase due to redistribution, the index sets, per-seat applied bets, the
stack snapshots entering round 2 and round 3, the dealt board, and the
per-winner payouts. -/
structure HandObs where
  kind : HandKind
  potFinal : ℚ
  payoutTotal : ℚ
  redistributed : ℚ
  active : List ℕ
  r1active : List ℕ
  r1postFold : List ℕ
  winners : List ℕ
  r1bets : List ℚ
  r2bets : List ℚ
  r3bets : List ℚ
  stacksAfterR1 : List ℚ
  stacksBeforeR3 : List ℚ
  board : List Card
  payouts : List ℚ
deriving DecidableEq, Repr

/-- The empty observation record. -/
def emptyObs (k : HandKind) : HandObs :=
  { kind := k, potFinal := 0, payoutTotal := 0, redistributed := 0, active := [],
    r1active := [], r1postFold := [], winners := [], r1bets := [], r2bets := [],
    r3bets := [], stacksAfterR1 := [], stacksBeforeR3 := [], board := [],
    payouts := [] }

/-- Sum of all stacks of a player list. -/
def stacksSum (players : List PlayerState) : ℚ := (players.map (·.stack)).sum

/-- Output of Round 0 (buy-ins and dealing): the post-buy-in ledgers, the
pooled pot, the 5 dealt community cards, and `active_players_indices`. -/
structure BuyInOut where
  players : List PlayerState
  pot : ℚ
  community : List Card
  active : List ℕ
deriving DecidableEq, Repr

/-- main.py lines 79-110: Round 0 of one game. -/
def buyInStage (env : Env) (g : ℕ) (st : MatchState) : BuyInOut :=
  let b := buyInLoop (List.range st.players.length) st.players 0 (env.shuffledDeck g) []
  { players := b.1, pot := b.2.1, community := (popN 5 b.2.2.1).1, active := b.2.2.2 }

/-- Output of Round 1: ledgers, pot, the `r1_bets` record, the eligible set,
the non-folded survivors, and the stack snapshots later rounds consume. -/
structure R1Out where
  players : List PlayerState
  pot : ℚ
  r1bets : List ℚ
  r1active : List ℕ
  postFold : List ℕ
  current_stacks : List ℚ
  stacksAfterR1 : List ℚ
deriving DecidableEq, Repr

/-- main.py lines 120-175: Round 1 (the affordability check, flop betting)
plus the survivor computation of line 175.  `n` is the seat count. -/
def r1Stage (env : Env) (g : ℕ) (n : ℕ) (a : BuyInOut) : R1Out :=
  let e := r1ElimLoop a.active a.players a.pot []
  let r1 := r1Loop env g (a.community.take 3) (a.players.map (·.stack)) e.2.2.length
    e.2.2 e.1 e.2.1 (List.replicate n 0)
  { players := r1.1, pot := r1.2.1, r1bets := r1.2.2, r1active := e.2.2,
    postFold := e.2.2.filter (fun i => !(r1.1.getD i dummyPlayer).has_folded),
    current_stacks := a.players.map (·.stack),
    stacksAfterR1 := r1.1.map (·.stack) }

/-- main.py lines 178-213: the early fold-equity win. -/
def earlyResult (st : MatchState) (a : BuyInOut) (r : R1Out) :
    MatchState × HandObs :=
  let w := r.postFold.headD 0
  let winner := r.players.getD w dummyPlayer
  let actual := min (4 * (BUY_IN + winner.current_bet_r1)) r.pot
  let players4 := r.players.set w { winner with stack := winner.stack + actual }
  ({ players := players4,
     history := st.history ++
       [{ records := truncRecords players4,
          community_cards := a.community.take 3, pot_final := r.pot }],
     wins := st.wins.set w (st.wins.getD w 0 + 1) },
   { kind := .early, potFinal := r.pot, payoutTotal := actual, redistributed := 0,
     active := a.active, r1active := r.r1active, r1postFold := r.postFold,
     winners := [w], r1bets := r.r1bets, r2bets := [], r3bets := [],
     stacksAfterR1 := r.stacksAfterR1, stacksBeforeR3 := [], board := a.community,
     payouts := [] })

/-- main.py lines 230-251: the hand ends because nobody reaches Round 2. -/
def truncResult (st : MatchState) (a : BuyInOut) (r : R1Out) :
    MatchState × HandObs :=
  ({ players := r.players,
     history := st.history ++
       [{ records := truncRecords r.players,
          community_cards := a.community.take 3, pot_final := r.pot }],
     wins := st.wins },
   { kind := .truncated, potFinal := r.pot, payoutTotal := 0, redistributed := 0,
     active := a.active, r1active := r.r1active, r1postFold := r.postFold,
     winners := [], r1bets := r.r1bets, r2bets := [], r3bets := [],
     stacksAfterR1 := r.stacksAfterR1, stacksBeforeR3 := [], board := a.community,
     payouts := [] })

/-- Output of Round 2: ledgers, pot and the `r2_bets` record. -/
structure R2Out where
  players : List PlayerState
  pot : ℚ
  r2bets : List ℚ
deriving DecidableEq, Repr

/-- main.py lines 218-280: Round 2 (turn betting). -/
def r2Stage (env : Env) (g : ℕ) (n : ℕ) (a : BuyInOut) (r : R1Out) : R2Out :=
  let r2 := r2Loop env g (a.community.take 4) r.r1bets r.current_stacks
    r.postFold.length r.postFold r.players r.pot (List.replicate n 0)
  { players := r2.1, pot := r2.2.1, r2bets := r2.2.2 }

/-- Output of Round 3: ledgers, pot and the ghost record of river bets. -/
structure R3Out where
  players : List PlayerState
  pot : ℚ
  r3bets : List ℚ
deriving DecidableEq, Repr

/-- main.py lines 286-321: Round 3 (river betting). -/
def r3Stage (env : Env) (g : ℕ) (n : ℕ) (a : BuyInOut) (r : R1Out) (s : R2Out) :
    R3Out :=
  let r3 := r3Loop env g a.community r.r1bets s.r2bets r.current_stacks
    r.postFold.length r.postFold s.players s.pot (List.replicate n 0)
  { players := r3.1, pot := r3.2.1, r3bets := r3.2.2 }

/-- Output of the showdown evaluation loop. -/
structure ShowOut where
  players : List PlayerState
  winners : List ℕ
  records : List (ℕ × PlayerRecord)
deriving DecidableEq, Repr

/-- main.py lines 328-358: evaluate every dealt-in player at showdown. -/
def showStage (env : Env) (a : BuyInOut) (t : R3Out) : ShowOut :=
  let sd := showdownLoop env.evalFive a.community a.active t.players 7463 [] []
  { players := sd.1, winners := sd.2.2.1, records := sd.2.2.2 }

/-- main.py lines 364-407: payouts under the winning cap, the history entry,
and the redistribution law. -/
def showdownResult (st : MatchState) (a : BuyInOut) (r : R1Out) (s : R2Out)
    (t : R3Out) (u : ShowOut) : MatchState × HandObs :=
  let pay := runPayouts t.pot u.winners u.players st.wins
  let remaining := t.pot - pay.2.2.1
  let players9 :=
    if remaining > 0 then
      if r.postFold = [] then pay.1
      else redistribute r.postFold (remaining / (r.postFold.length : ℚ)) pay.1
    else pay.1
  ({ players := players9,
     history := st.history ++
       [{ records := u.records,
          community_cards := a.community, pot_final := t.pot }],
     wins := pay.2.1 },
   { kind := .showdown, potFinal := t.pot, payoutTotal := pay.2.2.1,
     redistributed := stacksSum players9 - stacksSum pay.1,
     active := a.active, r1active := r.r1active, r1postFold := r.postFold,
     winners := u.winners, r1bets := r.r1bets, r2bets := s.r2bets,
     r3bets := t.r3bets, stacksAfterR1 := r.stacksAfterR1,
     stacksBeforeR3 := s.players.map (·.stack), board := a.community,
     payouts := pay.2.2.2 })

/-- main.py lines 218-407: rounds 2 and 3, showdown, payouts and
redistribution (the part of a hand after the early-win check). -/
def lateResult (env : Env) (g : ℕ) (st : MatchState) (n : ℕ) (a : BuyInOut)
    (r : R1Out) : MatchState × HandObs :=
  let s := r2Stage env g n a r
  if r.postFold.length = 0 then
    -- main.py lines 292-293 (unreachable here; kept for faithfulness).
    ({ st with players := s.players },
     { (emptyObs .noR3) with
         potFinal := s.pot, active := a.active, r1active := r.r1active,
         r1postFold := r.postFold, r1bets := r.r1bets, r2bets := s.r2bets,
         stacksAfterR1 := r.stacksAfterR1, board := a.community })
  else
    let t := r3Stage env g n a r s
    let u := showStage env a t
    if u.winners = [] then
      -- main.py lines 360-362.
      ({ st with players := u.players },
       { (emptyObs .noWinner) with
           potFinal := t.pot, active := a.active, r1active := r.r1active,
           r1postFold := r.postFold, r1bets := r.r1bets, r2bets := s.r2bets,
           r3bets := t.r3bets, stacksAfterR1 := r.stacksAfterR1,
           stacksBeforeR3 := s.players.map (·.stack), board := a.community })
    else showdownResult st a r s t u

/-- One iteration of the game loop of main.py `play_match` (lines 66-412):
Round 0 buy-ins and dealing, the three betting rounds, early-win detection,
showdown, payouts and redistribution.  Returns the updated match state and
the ghost observations of the hand. -/
def playHand (env : Env) (g : ℕ) (st : MatchState) : MatchState × HandObs :=
  let a := buyInStage env g st
  if a.active.length < 2 then
    ({ st with players := a.players },
     { (emptyObs .halted) with active := a.active, board := a.community })
  else
    let r := r1Stage env g st.players.length a
    if r.postFold.length = 1 then earlyResult st a r
    else if r.postFold.length = 0 then truncResult st a r
    else lateResult env g st st.players.length a r

/-- A fresh player with the starting stack. -/
def initPlayer : PlayerState := { dummyPlayer with stack := STARTING_STACK }

/-- The initial match state of `play_match`: 5 seats, empty history,
zeroed win counters. -/
def initState : MatchState :=
  { players := List.replicate 5 initPlayer, history := [],
    wins := List.replicate 5 0 }

/-- The match state after the first `k` games, together with the halted
flag (`break` at main.py line 115 stops all further games). -/
def reach (env : Env) : ℕ → MatchState × Bool
  | 0 => (initState, false)
  | k + 1 =>
    let s := reach env k
    if s.2 then s
    else if NUM_GAMES ≤ k then s
    else
      let r := playHand env (k + 1) s.1
      (r.1, decide (r.2.kind = .halted))

/-- The whole tournament: main.py `play_match`. -/
def playMatch (env : Env) : MatchState := (reach env NUM_GAMES).1

/-- The ghost observations of game `k + 1`, or a `halted` record if that
game never runs (match already over or halted). -/
def handObs (env : Env) (k : ℕ) : HandObs :=
  if (reach env k).2 ∨ NUM_GAMES ≤ k then emptyObs .halted
  else (playHand env (k + 1) (reach env k).1).2

/-- Game `k + 1` ran and appended a history entry (the three paths of the
source that do so). -/
def handCompleted (env : Env) (k : ℕ) : Bool :=
  (handObs env k).kind = HandKind.early ∨ (handObs env k).kind = HandKind.truncated ∨
    (handObs env k).kind = HandKind.showdown

/-! ## The equity estimator (engine_core.py `calculate_multiplayer_equity`) -/

/-- One Monte Carlo trial of `calculate_multiplayer_equity` (the body of the
loop at engine_core.py lines 166-205).  `none` means the trial was skipped
by the safety check; otherwise the contribution added to `wins` (1, 1/2 or
0).  `num_opponents` is an integer exactly as in Python. -/
def equityTrial (evalFive : List Card → ℕ) (shuffle : ℕ → List Card → List Card)
    (hero_hand current_board remaining_deck : List Card) (num_opponents : ℤ)
    (t : ℕ) : Option ℚ :=
  let deck := shuffle t remaining_deck
  let cards_needed : ℤ := 5 - current_board.length
  if cards_needed + 2 * num_opponents > (deck.length : ℤ) then none
  else
    let runout := deck.take cards_needed.toNat
    let final_board := current_board ++ runout
    let opponent_hands := (List.range num_opponents.toNat).map
      (fun j => (deck.drop (cards_needed.toNat + 2 * j)).take 2)
    let hero_score := evaluate_best_hand evalFive (hero_hand ++ final_board)
    let opp_scores := opponent_hands.map
      (fun opp_hole => evaluate_best_hand evalFive (opp_hole ++ final_board))
    let best_opponent_score :=
      match opp_scores with
      | [] => 7463
      | s :: rest => rest.foldl min s
    some (if hero_score < best_opponent_score then 1
          else if hero_score = best_opponent_score then 1 / 2 else 0)

/-- engine_core.py `calculate_multiplayer_equity`.  `shuffle t` is the
outcome of the `t`-th `random.shuffle` of the remaining deck. -/
def calculate_multiplayer_equity (evalFive : List Card → ℕ)
    (shuffle : ℕ → List Card → List Card) (hero_hand current_board : List Card)
    (num_players : ℕ) (iterations : ℕ) : ℚ :=
  let full_deck := get_clean_deck
  let known_cards := hero_hand ++ current_board
  let remaining_deck := full_deck.filter (fun c => !(known_cards.contains c))
  let num_opponents : ℤ := (num_players : ℤ) - 1
  let wins := (List.range iterations).foldl
    (fun w t =>
      w + (equityTrial evalFive shuffle hero_hand current_board remaining_deck
             num_opponents t).getD 0) 0
  if iterations = 0 then 0
  else wins / (iterations : ℚ) * 100 / 100

/-- The unknown-card pool the estimator draws from. -/
def remainingDeckOf (hero_hand current_board : List Card) : List Card :=
  get_clean_deck.filter (fun c => !((hero_hand ++ current_board).contains c))

/-- Number of Monte Carlo trials that actually ran (were not skipped). -/
def equityTrialsRun (evalFive : List Card → ℕ) (shuffle : ℕ → List Card → List Card)
    (hero_hand current_board : List Card) (num_players : ℕ) (iterations : ℕ) : ℕ :=
  ((List.range iterations).filter (fun t =>
    (equityTrial evalFive shuffle hero_hand current_board
       (remainingDeckOf hero_hand current_board) ((num_players : ℤ) - 1) t).isSome)).length

/-- Sum of the contributions of the trials that ran. -/
def equityContribSum (evalFive : List Card → ℕ) (shuffle : ℕ → List Card → List Card)
    (hero_hand current_board : List Card) (num_players : ℕ) (iterations : ℕ) : ℚ :=
  ((List.range iterations).map (fun t =>
    (equityTrial evalFive shuffle hero_hand current_board
       (remainingDeckOf hero_hand current_board) ((num_players : ℤ) - 1) t).getD 0)).sum

/-! ## Concrete environments used by counterexamples and witnesses -/

/-- `create_deck` with the cards at positions 45 and 51 swapped ("8c" and
"Ac"): a legal shuffle outcome that deals "Ac" to seat 3 when five seats
are funded. -/
def swappedDeck : List Card := (create_deck.set 45 "Ac").set 51 "8c"

/-- Round-1 raw decisions of the counterexample seats (game, seat). -/
def cexR1 (g i : ℕ) : Option ℚ :=
  if g ≤ 7 then
    if i = 0 ∨ i = 1 ∨ i = 3 then some 300 else none
  else
    if i = 1 then some 300 else if i = 2 then some 100 else none

/-- Round-2 raw decisions of the counterexample seats. -/
def cexR2 (g i : ℕ) : ℚ :=
  if g ≤ 7 then (if i = 1 ∧ g = 7 then 300 else 450)
  else if i = 1 then 150 else 50

/-- Round-3 raw decisions of the counterexample seats. -/
def cexR3 (g i : ℕ) : ℚ :=
  if g ≤ 7 then (if i = 1 ∧ g = 7 then 285 else 1125 / 2)
  else if i = 1 then 105 else 75 / 2

/-- The strategy of counterexample seat `i`. -/
def cexStrategy (i : ℕ) : Strategy :=
  { round1 := fun g _ _ _ _ _ => cexR1 g i,
    round2 := fun g _ _ _ _ _ _ => cexR2 g i,
    round3 := fun g _ _ _ _ _ _ _ => cexR3 g i }

/-- An oracle under which exactly the combos holding "Ac" are best. -/
def cexEvalFive (cs : List Card) : ℕ := if cs.contains "Ac" then 1 else 500

/-- A concrete match: seats 0 and 1 bleed chips to seat 3 for seven games,
then in game 8 seat 0 posts the buy-in with a stack of 112.5, is
eliminated at the round-1 affordability check, yet wins the showdown; and
seat 1 reaches round 2 with stack 140 after a round-1 bet of 300. -/
def cexEnv : Env :=
  { shuffledDeck := fun g => if g ≤ 7 then swappedDeck else create_deck,
    strategies := [cexStrategy 0, cexStrategy 1, cexStrategy 2, cexStrategy 3,
                   cexStrategy 4],
    evalFive := cexEvalFive,
    equityOf := fun _ _ _ _ => 0 }

/-- A match in which every seat folds round 1 of game 1: the hand completes
with a pooled pot of 500 and no payout and no redistribution at all. -/
def cexFoldEnv : Env :=
  { shuffledDeck := fun _ => create_deck,
    strategies := List.replicate 5 dummyStrategy,
    evalFive := fun _ => 500,
    equityOf := fun _ _ _ _ => 0 }

/-- Witness strategy: bet the raw values 100 / 50 / 37.5 every round. -/
def wBetStrategy : Strategy :=
  { round1 := fun _ _ _ _ _ _ => some 100,
    round2 := fun _ _ _ _ _ _ _ => 50,
    round3 := fun _ _ _ _ _ _ _ _ => 75 / 2 }

/-- Witness match: seats 0 and 1 bet identically and split the showdown of
game 1; seats 2, 3, 4 fold. -/
def wShowEnv : Env :=
  { shuffledDeck := fun _ => create_deck,
    strategies := [wBetStrategy, wBetStrategy, dummyStrategy, dummyStrategy,
                   dummyStrategy],
    evalFive := fun _ => 5,
    equityOf := fun _ _ _ _ => 0 }

/-- Witness match: only seat 0 bets round 1 of game 1, so game 1 is an
early fold-equity win for seat 0. -/
def wEarlyEnv : Env :=
  { shuffledDeck := fun _ => create_deck,
    strategies := [wBetStrategy, dummyStrategy, dummyStrategy, dummyStrategy,
                   dummyStrategy],
    evalFive := fun _ => 5,
    equityOf := fun _ _ _ _ => 0 }

/-- A ledger state in which only seat 0 can afford the buy-in. -/
def wPoorState : MatchState :=
  { players := [initPlayer, { initPlayer with stack := 50 },
                { initPlayer with stack := 50 }, { initPlayer with stack := 50 },
                { initPlayer with stack := 50 }],
    history := [], wins := List.replicate 5 0 }

/-- A ledger state in which seat 0 is already eliminated. -/
def wLostState : MatchState :=
  { players := [{ initPlayer with
                    stack := 7, is_lost_match := true, current_bet_r1 := 3,
                    has_folded := true },
                initPlayer, initPlayer, initPlayer, initPlayer],
    history := [], wins := List.replicate 5 0 }

/-- Strategy of the halting-match heavies: bet 300 / 450 / 375.125. -/
def wHaltHeavy : Strategy :=
  { round1 := fun _ _ _ _ _ _ => some 300,
    round2 := fun _ _ _ _ _ _ _ => 450,
    round3 := fun _ _ _ _ _ _ _ _ => 3001 / 8 }

/-- Strategy of the halting-match winner seat: bet 300 / 450 / 562.5. -/
def wHaltWinner : Strategy :=
  { round1 := fun _ _ _ _ _ _ => some 300,
    round2 := fun _ _ _ _ _ _ _ => 450,
    round3 := fun _ _ _ _ _ _ _ _ => 1125 / 2 }

/-- Strategy of halting-match seat 4: fold the first eight games, then bet
like the winner seat (and lose to it). -/
def wHaltLate : Strategy :=
  { round1 := fun g _ _ _ _ _ => if g ≤ 8 then none else some 300,
    round2 := fun _ _ _ _ _ _ _ => 450,
    round3 := fun _ _ _ _ _ _ _ _ => 1125 / 2 }

/-- A match that really halts: seats 0, 1, 2 drain to 199 by game 8 and are
eliminated in game 9; seat 4 then drains against seat 3 and is eliminated
in game 16, leaving a single funded seat, so game 16 stops the match. -/
def wHaltEnv : Env :=
  { shuffledDeck := fun g => if g ≤ 9 then swappedDeck else create_deck,
    strategies := [wHaltHeavy, wHaltHeavy, wHaltHeavy, wHaltWinner, wHaltLate],
    evalFive := cexEvalFive,
    equityOf := fun _ _ _ _ => 0 }

/-! ## List helper lemmas -/

theorem getD_set_self {α : Type} (l : List α) {i : ℕ} (h : i < l.length) (a d : α) :
    (l.set i a).getD i d = a := by
  simp [List.getD_eq_getElem?_getD, List.getElem?_set_self h]

theorem getD_set_ne {α : Type} (l : List α) {i j : ℕ} (h : i ≠ j) (a d : α) :
    (l.set i a).getD j d = l.getD j d := by
  simp [List.getD_eq_getElem?_getD, List.getElem?_set_ne h]

theorem getD_mem_or {α : Type} (l : List α) (i : ℕ) (d : α) :
    l.getD i d ∈ l ∨ l.getD i d = d := by
  rw [List.getD_eq_getD_get?]
  rcases h : l.get? i with _ | a
  · right; simp
  · left
    simpa using List.get?_mem h

theorem getD_map {α β : Type} (f : α → β) (l : List α) {i : ℕ} (h : i < l.length)
    (d : α) (c : β) : (l.map f).getD i c = f (l.getD i d) := by
  simp [List.getD_eq_getElem?_getD, List.getElem?_eq_getElem, h]

theorem getD_replicate {α : Type} (n i : ℕ) (x d : α) :
    (List.replicate n x).getD i d = if i < n then x else d := by
  split <;> rename_i h
  · simp [List.getD_eq_getElem?_getD, List.getElem?_replicate, h]
  · have hlen : (List.replicate n x).length ≤ i := by simpa using not_lt.1 h
    simp [List.getD_eq_getElem?_getD, List.getElem?_eq_none hlen]

theorem stacksSum_set (ps : List PlayerState) {i : ℕ} (h : i < ps.length)
    (q : PlayerState) :
    stacksSum (ps.set i q) = stacksSum ps + q.stack - (ps.getD i dummyPlayer).stack := by
  induction ps generalizing i with
  | nil => simp at h
  | cons p rest ih =>
    cases i with
    | zero => simp [stacksSum]; ring
    | succ m =>
      have hm : m < rest.length := by simpa using h
      simp only [List.set, stacksSum, List.map_cons, List.sum_cons, List.getD_cons_succ]
      have h2 := ih hm
      simp only [stacksSum] at h2
      rw [h2]; ring

theorem foldl_add_sum {α : Type} (f : α → ℚ) (l : List α) (a : ℚ) :
    l.foldl (fun acc x => acc + f x) a = a + (l.map f).sum := by
  induction l generalizing a with
  | nil => simp
  | cons x xs ih => simp [ih, add_assoc]

theorem foldl_min_le_init (l : List ℕ) (a : ℕ) : l.foldl min a ≤ a := by
  induction l generalizing a with
  | nil => simp
  | cons x xs ih => exact le_trans (ih (min a x)) (min_le_left a x)

theorem foldl_min_le_of_mem (l : List ℕ) (x : ℕ) (hx : x ∈ l) :
    ∀ a : ℕ, l.foldl min a ≤ x := by
  induction l with
  | nil => simp at hx
  | cons y ys ih =>
    intro a
    rcases List.mem_cons.1 hx with rfl | hx2
    · exact le_trans (foldl_min_le_init ys (min a x)) (min_le_right a x)
    · exact ih hx2 (min a y)

theorem popN_fst_length (k : ℕ) (d : List Card) : (popN k d).1.length = k := by
  induction k generalizing d with
  | zero => simp [popN]
  | succ m ih => simp [popN, ih]

theorem getD_of_len_le {α : Type} (l : List α) {i : ℕ} (h : l.length ≤ i) (d : α) :
    l.getD i d = d := by
  simp [List.getD_eq_getElem?_getD, List.getElem?_eq_none h]

/-! ## Nonnegativity invariants -/

/-- All money fields of a ledger entry are nonnegative. -/
def NN (p : PlayerState) : Prop :=
  0 ≤ p.stack ∧ 0 ≤ p.current_bet_r1 ∧ 0 ≤ p.current_bet_r2 ∧ 0 ≤ p.final_round_bet

/-- Nonnegative stack and zeroed per-round bets (the state right after the
buy-in loop reset every seat). -/
def CleanNN (p : PlayerState) : Prop :=
  0 ≤ p.stack ∧ p.current_bet_r1 = 0 ∧ p.current_bet_r2 = 0 ∧ p.final_round_bet = 0

theorem CleanNN.toNN {p : PlayerState} (h : CleanNN p) : NN p := by
  obtain ⟨h1, h2, h3, h4⟩ := h
  exact ⟨h1, by rw [h2], by rw [h3], by rw [h4]⟩

theorem NN_dummy : NN dummyPlayer := by simp [NN, dummyPlayer]

theorem CleanNN_dummy : CleanNN dummyPlayer := by simp [CleanNN, dummyPlayer]

/-- Pointwise nonnegativity of a whole ledger list. -/
def NNs (ps : List PlayerState) : Prop := ∀ j : ℕ, NN (ps.getD j dummyPlayer)

theorem NNs_mem {ps : List PlayerState} (h : NNs ps) : ∀ p ∈ ps, NN p := by
  intro p hp
  obtain ⟨m, hm, he⟩ := List.mem_iff_getElem.1 hp
  have : ps.getD m dummyPlayer = p := by
    simp [List.getD_eq_getElem?_getD, List.getElem?_eq_getElem hm, he]
  rw [← this]; exact h m

/-! ## buyInLoop lemmas -/

theorem buyInLoop_length (idxs : List ℕ) (players : List PlayerState) (pot : ℚ)
    (deal : List Card) (active : List ℕ) :
    (buyInLoop idxs players pot deal active).1.length = players.length := by
  induction idxs generalizing players pot deal active with
  | nil => simp [buyInLoop]
  | cons i rest ih =>
    simp only [buyInLoop]
    split
    · rw [ih]; simp
    · split
      · rw [ih]; simp
      · rw [ih]; simp

theorem buyInLoop_untouched (idxs : List ℕ) (players : List PlayerState) (pot : ℚ)
    (deal : List Card) (active : List ℕ) {j : ℕ} (hj : j ∉ idxs) :
    (buyInLoop idxs players pot deal active).1.getD j dummyPlayer =
      players.getD j dummyPlayer := by
  induction idxs generalizing players pot deal active with
  | nil => simp [buyInLoop]
  | cons i rest ih =>
    have hji : j ≠ i := fun h => hj (h ▸ List.mem_cons_self i rest)
    have hjr : j ∉ rest := fun h => hj (List.mem_cons_of_mem i h)
    simp only [buyInLoop]
    split
    · rw [ih _ _ _ _ hjr, getD_set_ne _ (Ne.symm hji)]
    · split
      · rw [ih _ _ _ _ hjr, getD_set_ne _ (Ne.symm hji)]
      · rw [ih _ _ _ _ hjr, getD_set_ne _ (Ne.symm hji)]

theorem buyInLoop_active (idxs : List ℕ) (players : List PlayerState) (pot : ℚ)
    (deal : List Card) (active : List ℕ) :
    ∃ s, (buyInLoop idxs players pot deal active).2.2.2 = active ++ s ∧
      s.Sublist idxs := by
  induction idxs generalizing players pot deal active with
  | nil => exact ⟨[], by simp [buyInLoop]⟩
  | cons i rest ih =>
    simp only [buyInLoop]
    split
    · obtain ⟨s, hs, hsub⟩ := ih _ _ _ _
      exact ⟨s, hs, hsub.cons i⟩
    · split
      · obtain ⟨s, hs, hsub⟩ := ih _ _ _ _
        exact ⟨s, hs, hsub.cons i⟩
      · obtain ⟨s, hs, hsub⟩ := ih _ _ _ _
        refine ⟨i :: s, ?_, hsub.cons₂ i⟩
        rw [hs]; simp

theorem buyInLoop_master (idxs : List ℕ) (players : List PlayerState) (pot : ℚ)
    (deal : List Card) (active : List ℕ)
    (hmem : ∀ p ∈ players, 0 ≤ p.stack) (hpot : 0 ≤ pot)
    (hidx : ∀ j : ℕ, j ∈ idxs ∨ CleanNN (players.getD j dummyPlayer)) :
    (∀ p ∈ (buyInLoop idxs players pot deal active).1, 0 ≤ p.stack) ∧
      0 ≤ (buyInLoop idxs players pot deal active).2.1 ∧
      (∀ j : ℕ, CleanNN ((buyInLoop idxs players pot deal active).1.getD j dummyPlayer)) := by
  induction idxs generalizing players pot deal active with
  | nil =>
    refine ⟨hmem, hpot, fun j => ?_⟩
    rcases hidx j with hj | hj
    · simp at hj
    · simpa [buyInLoop] using hj
  | cons i rest ih =>
    have hp0 : 0 ≤ (players.getD i dummyPlayer).stack := by
      rcases getD_mem_or players i dummyPlayer with hm | he
      · exact hmem _ hm
      · rw [he]; simp [dummyPlayer]
    have hstep : ∀ (v : PlayerState), CleanNN v →
        (∀ p ∈ players.set i v, 0 ≤ p.stack) ∧
        (∀ j : ℕ, j ∈ rest ∨ CleanNN ((players.set i v).getD j dummyPlayer)) := by
      intro v hv
      constructor
      · intro p hp
        rcases List.mem_or_eq_of_mem_set hp with hm | rfl
        · exact hmem _ hm
        · exact hv.1
      · intro j
        by_cases hjr : j ∈ rest
        · exact Or.inl hjr
        · right
          by_cases hji : j = i
          · subst hji
            by_cases hlen : j < players.length
            · rwa [getD_set_self _ hlen]
            · rw [getD_of_len_le _ (by simpa using not_lt.1 hlen)]
              exact CleanNN_dummy
          · rw [getD_set_ne _ (fun h => hji h.symm)]
            rcases hidx j with hj | hj
            · rcases List.mem_cons.1 hj with h1 | h2
              · exact absurd h1 hji
              · exact absurd h2 hjr
            · exact hj
    simp only [buyInLoop]
    split
    · rename_i hlost
      have hv : CleanNN (resetRound (players.getD i dummyPlayer)) := by
        refine ⟨by simpa [resetRound] using hp0, by simp [resetRound], by simp [resetRound],
          by simp [resetRound]⟩
      obtain ⟨h1, h2⟩ := hstep _ hv
      exact ih _ _ _ _ h1 hpot h2
    · split
      · rename_i hlost hpoor
        have hv : CleanNN { resetRound (players.getD i dummyPlayer) with
            stack := 0, is_lost_match := true } := by
          exact ⟨le_refl 0, by simp [resetRound], by simp [resetRound], by simp [resetRound]⟩
        obtain ⟨h1, h2⟩ := hstep _ hv
        refine ih _ _ _ _ h1 ?_ h2
        have hr : 0 ≤ (resetRound (players.getD i dummyPlayer)).stack := by
          simpa [resetRound] using hp0
        exact add_nonneg hpot hr
      · rename_i hlost hpoor
        have hrich : BUY_IN ≤ (resetRound (players.getD i dummyPlayer)).stack :=
          not_lt.1 hpoor
        have hv : CleanNN { resetRound (players.getD i dummyPlayer) with
            stack := (resetRound (players.getD i dummyPlayer)).stack - BUY_IN,
            hole_cards := [(deckPop deal).1, (deckPop (deckPop deal).2).1] } := by
          refine ⟨sub_nonneg.2 hrich, by simp [resetRound], by simp [resetRound],
            by simp [resetRound]⟩
        obtain ⟨h1, h2⟩ := hstep _ hv
        refine ih _ _ _ _ h1 ?_ h2
        have hb : (0 : ℚ) ≤ BUY_IN := by norm_num [BUY_IN]
        exact add_nonneg hpot hb

theorem CleanNNs_set {ps : List PlayerState}
    (h : ∀ j : ℕ, CleanNN (ps.getD j dummyPlayer)) {i : ℕ} {v : PlayerState}
    (hv : CleanNN v) : ∀ j : ℕ, CleanNN ((ps.set i v).getD j dummyPlayer) := by
  intro j
  by_cases hji : j = i
  · subst hji
    by_cases hlen : j < ps.length
    · rwa [getD_set_self _ hlen]
    · rw [getD_of_len_le _ (by simpa using not_lt.1 hlen)]
      exact CleanNN_dummy
  · rw [getD_set_ne _ (fun h2 => hji h2.symm)]
    exact h j

theorem NNs_set {ps : List PlayerState} (h : NNs ps) {i : ℕ} {v : PlayerState}
    (hv : NN v) : NNs (ps.set i v) := by
  intro j
  by_cases hji : j = i
  · subst hji
    by_cases hlen : j < ps.length
    · rwa [getD_set_self _ hlen]
    · rw [getD_of_len_le _ (by simpa using not_lt.1 hlen)]
      exact NN_dummy
  · rw [getD_set_ne _ (fun h2 => hji h2.symm)]
    exact h j

/-! ## r1ElimLoop lemmas -/

theorem r1ElimLoop_length (idxs : List ℕ) (players : List PlayerState) (pot : ℚ)
    (acc : List ℕ) :
    (r1ElimLoop idxs players pot acc).1.length = players.length := by
  induction idxs generalizing players pot acc with
  | nil => simp [r1ElimLoop]
  | cons i rest ih =>
    simp only [r1ElimLoop]
    split
    · rw [ih]; simp
    · rw [ih]

theorem r1ElimLoop_untouched (idxs : List ℕ) (players : List PlayerState) (pot : ℚ)
    (acc : List ℕ) {j : ℕ} (hj : j ∉ idxs) :
    (r1ElimLoop idxs players pot acc).1.getD j dummyPlayer =
      players.getD j dummyPlayer := by
  induction idxs generalizing players pot acc with
  | nil => simp [r1ElimLoop]
  | cons i rest ih =>
    have hji : j ≠ i := fun h => hj (h ▸ List.mem_cons_self i rest)
    have hjr : j ∉ rest := fun h => hj (List.mem_cons_of_mem i h)
    simp only [r1ElimLoop]
    split
    · rw [ih _ _ _ hjr, getD_set_ne _ (Ne.symm hji)]
    · rw [ih _ _ _ hjr]

theorem r1ElimLoop_active (idxs : List ℕ) (players : List PlayerState) (pot : ℚ)
    (acc : List ℕ) :
    ∃ s, (r1ElimLoop idxs players pot acc).2.2 = acc ++ s ∧ s.Sublist idxs := by
  induction idxs generalizing players pot acc with
  | nil => exact ⟨[], by simp [r1ElimLoop]⟩
  | cons i rest ih =>
    simp only [r1ElimLoop]
    split
    · obtain ⟨s, hs, hsub⟩ := ih _ _ _
      exact ⟨s, hs, hsub.cons i⟩
    · obtain ⟨s, hs, hsub⟩ := ih _ _ _
      refine ⟨i :: s, ?_, hsub.cons₂ i⟩
      rw [hs]; simp

theorem r1ElimLoop_master (idxs : List ℕ) (players : List PlayerState) (pot : ℚ)
    (acc : List ℕ)
    (hall : ∀ j : ℕ, CleanNN (players.getD j dummyPlayer)) (hpot : 0 ≤ pot) :
    (∀ j : ℕ, CleanNN ((r1ElimLoop idxs players pot acc).1.getD j dummyPlayer)) ∧
      0 ≤ (r1ElimLoop idxs players pot acc).2.1 := by
  induction idxs generalizing players pot acc with
  | nil => exact ⟨hall, hpot⟩
  | cons i rest ih =>
    simp only [r1ElimLoop]
    split
    · have hv : CleanNN { players.getD i dummyPlayer with
          stack := 0, is_lost_match := true } :=
        ⟨le_refl 0, (hall i).2.1, (hall i).2.2.1, (hall i).2.2.2⟩
      exact ih _ _ _ (CleanNNs_set hall hv) (add_nonneg hpot (hall i).1)
    · exact ih _ _ _ hall hpot

/-! ## r1Loop lemmas -/

theorem r1Loop_length (env : Env) (g : ℕ) (visible : List Card) (cs : List ℚ)
    (nAct : ℕ) (idxs : List ℕ) (players : List PlayerState) (pot : ℚ)
    (r1bets : List ℚ) :
    (r1Loop env g visible cs nAct idxs players pot r1bets).1.length = players.length ∧
      (r1Loop env g visible cs nAct idxs players pot r1bets).2.2.length =
        r1bets.length := by
  induction idxs generalizing players pot r1bets with
  | nil => simp [r1Loop]
  | cons i rest ih =>
    simp only [r1Loop]
    rcases (env.strategies.getD i dummyStrategy).round1 g
        (players.getD i dummyPlayer).hole_cards visible cs pot
        (env.equityOf g (players.getD i dummyPlayer).hole_cards visible nAct) with _ | val
    · obtain ⟨h1, h2⟩ := ih (players.set i _) pot r1bets
      exact ⟨by rw [h1]; simp, h2⟩
    · obtain ⟨h1, h2⟩ := ih (players.set i _) _ (r1bets.set i _)
      exact ⟨by rw [h1]; simp, by rw [h2]; simp⟩

theorem r1Loop_untouched (env : Env) (g : ℕ) (visible : List Card) (cs : List ℚ)
    (nAct : ℕ) (idxs : List ℕ) (players : List PlayerState) (pot : ℚ)
    (r1bets : List ℚ) {j : ℕ} (hj : j ∉ idxs) :
    (r1Loop env g visible cs nAct idxs players pot r1bets).1.getD j dummyPlayer =
        players.getD j dummyPlayer ∧
      (r1Loop env g visible cs nAct idxs players pot r1bets).2.2.getD j 0 =
        r1bets.getD j 0 := by
  induction idxs generalizing players pot r1bets with
  | nil => simp [r1Loop]
  | cons i rest ih =>
    have hji : j ≠ i := fun h => hj (h ▸ List.mem_cons_self i rest)
    have hjr : j ∉ rest := fun h => hj (List.mem_cons_of_mem i h)
    simp only [r1Loop]
    rcases (env.strategies.getD i dummyStrategy).round1 g
        (players.getD i dummyPlayer).hole_cards visible cs pot
        (env.equityOf g (players.getD i dummyPlayer).hole_cards visible nAct) with _ | val
    · obtain ⟨h1, h2⟩ := ih (players.set i _) pot r1bets hjr
      exact ⟨by rw [h1, getD_set_ne _ (Ne.symm hji)], h2⟩
    · obtain ⟨h1, h2⟩ := ih (players.set i _) _ (r1bets.set i _) hjr
      exact ⟨by rw [h1, getD_set_ne _ (Ne.symm hji)],
        by rw [h2, getD_set_ne _ (Ne.symm hji)]⟩

theorem r1Loop_master (env : Env) (g : ℕ) (visible : List Card) (cs : List ℚ)
    (nAct : ℕ) (idxs : List ℕ) (players : List PlayerState) (pot : ℚ)
    (r1bets : List ℚ)
    (hall : NNs players) (hpot : 0 ≤ pot) :
    NNs (r1Loop env g visible cs nAct idxs players pot r1bets).1 ∧
      0 ≤ (r1Loop env g visible cs nAct idxs players pot r1bets).2.1 := by
  induction idxs generalizing players pot r1bets with
  | nil => exact ⟨hall, hpot⟩
  | cons i rest ih =>
    simp only [r1Loop]
    rcases (env.strategies.getD i dummyStrategy).round1 g
        (players.getD i dummyPlayer).hole_cards visible cs pot
        (env.equityOf g (players.getD i dummyPlayer).hole_cards visible nAct) with _ | val
    · refine ih _ _ _ (NNs_set hall ?_) hpot
      obtain ⟨h1, h2, h3, h4⟩ := hall i
      exact ⟨h1, h2, h3, h4⟩
    · have hp := hall i
      have hprice : (0 : ℚ) ≤ max 100 (min 300 val) :=
        le_trans (by norm_num) (le_max_left 100 (min 300 val))
      have hprice2 : (0 : ℚ) ≤ min (max 100 (min 300 val)) (players.getD i dummyPlayer).stack :=
        le_min hprice hp.1
      have hle : min (max 100 (min 300 val)) (players.getD i dummyPlayer).stack ≤
          (players.getD i dummyPlayer).stack := min_le_right _ _
      refine ih _ _ _ (NNs_set hall ⟨sub_nonneg.2 hle, hprice2, hp.2.2.1, hp.2.2.2⟩)
        (add_nonneg hpot hprice2)

theorem r1Loop_agree (env : Env) (g : ℕ) (visible : List Card) (cs : List ℚ)
    (nAct : ℕ) (idxs : List ℕ) (players : List PlayerState) (pot : ℚ)
    (r1bets : List ℚ) (hlen : r1bets.length = players.length)
    (hag : ∀ j : ℕ, (players.getD j dummyPlayer).current_bet_r1 = r1bets.getD j 0) :
    ∀ j : ℕ, ((r1Loop env g visible cs nAct idxs players pot r1bets).1.getD j
        dummyPlayer).current_bet_r1 =
      (r1Loop env g visible cs nAct idxs players pot r1bets).2.2.getD j 0 := by
  induction idxs generalizing players pot r1bets with
  | nil => exact fun j => by simpa [r1Loop] using hag j
  | cons i rest ih =>
    simp only [r1Loop]
    rcases (env.strategies.getD i dummyStrategy).round1 g
        (players.getD i dummyPlayer).hole_cards visible cs pot
        (env.equityOf g (players.getD i dummyPlayer).hole_cards visible nAct) with _ | val
    · refine ih _ _ _ (by simpa using hlen) ?_
      intro j
      by_cases hji : j = i
      · subst hji
        by_cases hl : j < players.length
        · rw [getD_set_self _ hl]; exact hag j
        · rw [getD_of_len_le _ (by simpa using not_lt.1 hl),
            getD_of_len_le _ (le_of_eq_of_le hlen (not_lt.1 hl))]
          simp [dummyPlayer]
      · rw [getD_set_ne _ (fun h => hji h.symm)]; exact hag j
    · refine ih _ _ _ (by simp [hlen]) ?_
      intro j
      by_cases hji : j = i
      · subst hji
        by_cases hl : j < players.length
        · rw [getD_set_self _ hl, getD_set_self _ (by rw [hlen]; exact hl)]
        · rw [getD_of_len_le _ (by simpa using not_lt.1 hl),
            getD_of_len_le _ (by simpa [hlen] using not_lt.1 hl)]
          simp [dummyPlayer]
      · rw [getD_set_ne _ (fun h => hji h.symm), getD_set_ne _ (fun h => hji h.symm)]
        exact hag j

/-! ## r2Loop lemmas -/

theorem r2Loop_length (env : Env) (g : ℕ) (visible : List Card) (r1bets cs : List ℚ)
    (nAct : ℕ) (idxs : List ℕ) (players : List PlayerState) (pot : ℚ)
    (r2bets : List ℚ) :
    (r2Loop env g visible r1bets cs nAct idxs players pot r2bets).1.length =
        players.length ∧
      (r2Loop env g visible r1bets cs nAct idxs players pot r2bets).2.2.length =
        r2bets.length := by
  induction idxs generalizing players pot r2bets with
  | nil => simp [r2Loop]
  | cons i rest ih =>
    simp only [r2Loop]
    obtain ⟨h1, h2⟩ := ih (players.set i _) _ (r2bets.set i _)
    exact ⟨by rw [h1]; simp, by rw [h2]; simp⟩

theorem r2Loop_untouched (env : Env) (g : ℕ) (visible : List Card)
    (r1bets cs : List ℚ) (nAct : ℕ) (idxs : List ℕ) (players : List PlayerState)
    (pot : ℚ) (r2bets : List ℚ) {j : ℕ} (hj : j ∉ idxs) :
    (r2Loop env g visible r1bets cs nAct idxs players pot r2bets).1.getD j
        dummyPlayer = players.getD j dummyPlayer ∧
      (r2Loop env g visible r1bets cs nAct idxs players pot r2bets).2.2.getD j 0 =
        r2bets.getD j 0 := by
  induction idxs generalizing players pot r2bets with
  | nil => simp [r2Loop]
  | cons i rest ih =>
    have hji : j ≠ i := fun h => hj (h ▸ List.mem_cons_self i rest)
    have hjr : j ∉ rest := fun h => hj (List.mem_cons_of_mem i h)
    simp only [r2Loop]
    obtain ⟨h1, h2⟩ := ih (players.set i _) _ (r2bets.set i _) hjr
    exact ⟨by rw [h1, getD_set_ne _ (Ne.symm hji)],
      by rw [h2, getD_set_ne _ (Ne.symm hji)]⟩

theorem r2Loop_master (env : Env) (g : ℕ) (visible : List Card) (r1bets cs : List ℚ)
    (nAct : ℕ) (idxs : List ℕ) (players : List PlayerState) (pot : ℚ)
    (r2bets : List ℚ) (hall : NNs players) (hpot : 0 ≤ pot) :
    NNs (r2Loop env g visible r1bets cs nAct idxs players pot r2bets).1 ∧
      0 ≤ (r2Loop env g visible r1bets cs nAct idxs players pot r2bets).2.1 := by
  induction idxs generalizing players pot r2bets with
  | nil => exact ⟨hall, hpot⟩
  | cons i rest ih =>
    simp only [r2Loop]
    have hp := hall i
    have hmin : (0 : ℚ) ≤ (players.getD i dummyPlayer).current_bet_r1 * (1 / 2) := by
      have := hp.2.1; linarith
    have key : ∀ val : ℚ,
        (0 : ℚ) ≤ min (max ((players.getD i dummyPlayer).current_bet_r1 * (1 / 2))
          (min ((players.getD i dummyPlayer).current_bet_r1 * (3 / 2)) val))
          (players.getD i dummyPlayer).stack :=
      fun val => le_min (le_trans hmin (le_max_left _ _)) hp.1
    refine ih _ _ _ (NNs_set hall ⟨sub_nonneg.2 (min_le_right _ _), hp.2.1, key _,
      hp.2.2.2⟩) (add_nonneg hpot (key _))

theorem r2Loop_at (env : Env) (g : ℕ) (visible : List Card) (r1bets cs : List ℚ)
    (nAct : ℕ) (idxs : List ℕ) (players : List PlayerState) (pot : ℚ)
    (r2bets : List ℚ) (hnodup : idxs.Nodup) {i : ℕ} (hi : i ∈ idxs)
    (hlen : i < players.length) (hblen : i < r2bets.length) :
    ∃ price : ℚ,
      (∃ val : ℚ, price =
        min (max ((players.getD i dummyPlayer).current_bet_r1 * (1 / 2))
          (min ((players.getD i dummyPlayer).current_bet_r1 * (3 / 2)) val))
          (players.getD i dummyPlayer).stack) ∧
      (r2Loop env g visible r1bets cs nAct idxs players pot r2bets).2.2.getD i 0 =
        price ∧
      ((r2Loop env g visible r1bets cs nAct idxs players pot r2bets).1.getD i
          dummyPlayer).current_bet_r2 = price ∧
      ((r2Loop env g visible r1bets cs nAct idxs players pot r2bets).1.getD i
          dummyPlayer).stack = (players.getD i dummyPlayer).stack - price := by
  induction idxs generalizing players pot r2bets with
  | nil => simp at hi
  | cons k rest ih =>
    simp only [r2Loop]
    rcases List.mem_cons.1 hi with rfl | hir
    · have hkr : i ∉ rest := (List.nodup_cons.1 hnodup).1
      obtain ⟨hu1, hu2⟩ := r2Loop_untouched env g visible r1bets cs nAct rest
        (players.set i _) _ (r2bets.set i _) hkr
      refine ⟨_, ⟨(env.strategies.getD i dummyStrategy).round2 g
          (players.getD i dummyPlayer).hole_cards visible r1bets cs pot
          (env.equityOf g (players.getD i dummyPlayer).hole_cards visible nAct),
          rfl⟩, ?_, ?_, ?_⟩
      · rw [hu2, getD_set_self _ hblen]
      · rw [hu1, getD_set_self _ hlen]
      · rw [hu1, getD_set_self _ hlen]
    · have hnd := (List.nodup_cons.1 hnodup).2
      have hki : i ≠ k := fun h => (List.nodup_cons.1 hnodup).1 (h ▸ hir)
      obtain ⟨price, ⟨val, hv⟩, h1, h2, h3⟩ := ih (players.set k _) _ (r2bets.set k _)
        hnd hir (by simpa using hlen) (by simpa using hblen)
      rw [getD_set_ne _ (Ne.symm hki)] at hv h3
      exact ⟨price, ⟨val, hv⟩, h1, h2, h3⟩

/-! ## r3Loop lemmas -/

theorem r3Loop_length (env : Env) (g : ℕ) (visible : List Card)
    (r1bets r2bets cs : List ℚ) (nAct : ℕ) (idxs : List ℕ)
    (players : List PlayerState) (pot : ℚ) (r3bets : List ℚ) :
    (r3Loop env g visible r1bets r2bets cs nAct idxs players pot r3bets).1.length =
        players.length ∧
      (r3Loop env g visible r1bets r2bets cs nAct idxs players pot r3bets).2.2.length =
        r3bets.length := by
  induction idxs generalizing players pot r3bets with
  | nil => simp [r3Loop]
  | cons i rest ih =>
    simp only [r3Loop]
    obtain ⟨h1, h2⟩ := ih (players.set i _) _ (r3bets.set i _)
    exact ⟨by rw [h1]; simp, by rw [h2]; simp⟩

theorem r3Loop_untouched (env : Env) (g : ℕ) (visible : List Card)
    (r1bets r2bets cs : List ℚ) (nAct : ℕ) (idxs : List ℕ)
    (players : List PlayerState) (pot : ℚ) (r3bets : List ℚ) {j : ℕ}
    (hj : j ∉ idxs) :
    (r3Loop env g visible r1bets r2bets cs nAct idxs players pot r3bets).1.getD j
        dummyPlayer = players.getD j dummyPlayer ∧
      (r3Loop env g visible r1bets r2bets cs nAct idxs players pot r3bets).2.2.getD
        j 0 = r3bets.getD j 0 := by
  induction idxs generalizing players pot r3bets with
  | nil => simp [r3Loop]
  | cons i rest ih =>
    have hji : j ≠ i := fun h => hj (h ▸ List.mem_cons_self i rest)
    have hjr : j ∉ rest := fun h => hj (List.mem_cons_of_mem i h)
    simp only [r3Loop]
    obtain ⟨h1, h2⟩ := ih (players.set i _) _ (r3bets.set i _) hjr
    exact ⟨by rw [h1, getD_set_ne _ (Ne.symm hji)],
      by rw [h2, getD_set_ne _ (Ne.symm hji)]⟩

theorem r3Loop_master (env : Env) (g : ℕ) (visible : List Card)
    (r1bets r2bets cs : List ℚ) (nAct : ℕ) (idxs : List ℕ)
    (players : List PlayerState) (pot : ℚ) (r3bets : List ℚ)
    (hall : NNs players) (hpot : 0 ≤ pot) :
    NNs (r3Loop env g visible r1bets r2bets cs nAct idxs players pot r3bets).1 ∧
      0 ≤ (r3Loop env g visible r1bets r2bets cs nAct idxs players pot r3bets).2.1 := by
  induction idxs generalizing players pot r3bets with
  | nil => exact ⟨hall, hpot⟩
  | cons i rest ih =>
    simp only [r3Loop]
    have hp := hall i
    have hmin : (0 : ℚ) ≤ (players.getD i dummyPlayer).current_bet_r2 * (3 / 4) := by
      have := hp.2.2.1; linarith
    have key : ∀ val : ℚ,
        (0 : ℚ) ≤ min (max ((players.getD i dummyPlayer).current_bet_r2 * (3 / 4))
          (min ((players.getD i dummyPlayer).current_bet_r2 * (5 / 4)) val))
          (players.getD i dummyPlayer).stack :=
      fun val => le_min (le_trans hmin (le_max_left _ _)) hp.1
    refine ih _ _ _ (NNs_set hall ⟨sub_nonneg.2 (min_le_right _ _), hp.2.1, hp.2.2.1,
      key _⟩) (add_nonneg hpot (key _))

theorem r3Loop_at (env : Env) (g : ℕ) (visible : List Card)
    (r1bets r2bets cs : List ℚ) (nAct : ℕ) (idxs : List ℕ)
    (players : List PlayerState) (pot : ℚ) (r3bets : List ℚ)
    (hnodup : idxs.Nodup) {i : ℕ} (hi : i ∈ idxs) (hlen : i < players.length)
    (hblen : i < r3bets.length) :
    ∃ price : ℚ,
      (∃ val : ℚ, price =
        min (max ((players.getD i dummyPlayer).current_bet_r2 * (3 / 4))
          (min ((players.getD i dummyPlayer).current_bet_r2 * (5 / 4)) val))
          (players.getD i dummyPlayer).stack) ∧
      (r3Loop env g visible r1bets r2bets cs nAct idxs players pot r3bets).2.2.getD
        i 0 = price ∧
      ((r3Loop env g visible r1bets r2bets cs nAct idxs players pot r3bets).1.getD i
          dummyPlayer).final_round_bet = price ∧
      ((r3Loop env g visible r1bets r2bets cs nAct idxs players pot r3bets).1.getD i
          dummyPlayer).stack = (players.getD i dummyPlayer).stack - price := by
  induction idxs generalizing players pot r3bets with
  | nil => simp at hi
  | cons k rest ih =>
    simp only [r3Loop]
    rcases List.mem_cons.1 hi with rfl | hir
    · have hkr : i ∉ rest := (List.nodup_cons.1 hnodup).1
      obtain ⟨hu1, hu2⟩ := r3Loop_untouched env g visible r1bets r2bets cs nAct rest
        (players.set i _) _ (r3bets.set i _) hkr
      refine ⟨_, ⟨(env.strategies.getD i dummyStrategy).round3 g
          (players.getD i dummyPlayer).hole_cards visible r1bets r2bets cs pot
          (env.equityOf g (players.getD i dummyPlayer).hole_cards visible nAct),
          rfl⟩, ?_, ?_, ?_⟩
      · rw [hu2, getD_set_self _ hblen]
      · rw [hu1, getD_set_self _ hlen]
      · rw [hu1, getD_set_self _ hlen]
    · have hnd := (List.nodup_cons.1 hnodup).2
      have hki : i ≠ k := fun h => (List.nodup_cons.1 hnodup).1 (h ▸ hir)
      obtain ⟨price, ⟨val, hv⟩, h1, h2, h3⟩ := ih (players.set k _) _ (r3bets.set k _)
        hnd hir (by simpa using hlen) (by simpa using hblen)
      rw [getD_set_ne _ (Ne.symm hki)] at hv h3
      exact ⟨price, ⟨val, hv⟩, h1, h2, h3⟩

/-! ## showdownLoop lemmas -/

theorem showdownLoop_length (evalFive : List Card → ℕ) (community : List Card)
    (idxs : List ℕ) (players : List PlayerState) (best : ℕ) (winners : List ℕ)
    (records : List (ℕ × PlayerRecord)) :
    (showdownLoop evalFive community idxs players best winners records).1.length =
      players.length := by
  induction idxs generalizing players best winners records with
  | nil => simp [showdownLoop]
  | cons i rest ih =>
    simp only [showdownLoop]
    split
    · rw [ih]
    · split
      · rw [ih]; simp
      · split
        · rw [ih]; simp
        · rw [ih]; simp

theorem showdownLoop_untouched (evalFive : List Card → ℕ) (community : List Card)
    (idxs : List ℕ) (players : List PlayerState) (best : ℕ) (winners : List ℕ)
    (records : List (ℕ × PlayerRecord)) {j : ℕ} (hj : j ∉ idxs) :
    (showdownLoop evalFive community idxs players best winners records).1.getD j
      dummyPlayer = players.getD j dummyPlayer := by
  induction idxs generalizing players best winners records with
  | nil => simp [showdownLoop]
  | cons i rest ih =>
    have hji : j ≠ i := fun h => hj (h ▸ List.mem_cons_self i rest)
    have hjr : j ∉ rest := fun h => hj (List.mem_cons_of_mem i h)
    simp only [showdownLoop]
    split
    · rw [ih _ _ _ _ hjr]
    · split
      · rw [ih _ _ _ _ hjr, getD_set_ne _ (Ne.symm hji)]
      · split
        · rw [ih _ _ _ _ hjr, getD_set_ne _ (Ne.symm hji)]
        · rw [ih _ _ _ _ hjr, getD_set_ne _ (Ne.symm hji)]

theorem showdownLoop_NNs (evalFive : List Card → ℕ) (community : List Card)
    (idxs : List ℕ) (players : List PlayerState) (best : ℕ) (winners : List ℕ)
    (records : List (ℕ × PlayerRecord)) (hall : NNs players) :
    NNs (showdownLoop evalFive community idxs players best winners records).1 := by
  induction idxs generalizing players best winners records with
  | nil => simpa [showdownLoop] using hall
  | cons i rest ih =>
    simp only [showdownLoop]
    have hp := hall i
    split
    · exact ih _ _ _ _ hall
    · split
      · exact ih _ _ _ _ (NNs_set hall ⟨hp.1, hp.2.1, hp.2.2.1, hp.2.2.2⟩)
      · split
        · exact ih _ _ _ _ (NNs_set hall ⟨hp.1, hp.2.1, hp.2.2.1, hp.2.2.2⟩)
        · exact ih _ _ _ _ (NNs_set hall ⟨hp.1, hp.2.1, hp.2.2.1, hp.2.2.2⟩)

theorem showdownLoop_winners (evalFive : List Card → ℕ) (community : List Card)
    (idxs : List ℕ) (players : List PlayerState) (best : ℕ) (winners : List ℕ)
    (records : List (ℕ × PlayerRecord)) :
    ∀ w ∈ (showdownLoop evalFive community idxs players best winners records).2.2.1,
      w ∈ winners ∨ w ∈ idxs := by
  induction idxs generalizing players best winners records with
  | nil => intro w hw; simp [showdownLoop] at hw; exact Or.inl hw
  | cons i rest ih =>
    intro w hw
    simp only [showdownLoop] at hw
    split at hw
    · rcases ih _ _ _ _ _ hw with h | h
      · exact Or.inl h
      · exact Or.inr (List.mem_cons_of_mem i h)
    · split at hw
      · rcases ih _ _ _ _ _ hw with h | h
        · simp at h
          exact Or.inr (h ▸ List.mem_cons_self i rest)
        · exact Or.inr (List.mem_cons_of_mem i h)
      · split at hw
        · rcases ih _ _ _ _ _ hw with h | h
          · rcases List.mem_append.1 h with h2 | h2
            · exact Or.inl h2
            · simp at h2
              exact Or.inr (h2 ▸ List.mem_cons_self i rest)
          · exact Or.inr (List.mem_cons_of_mem i h)
        · rcases ih _ _ _ _ _ hw with h | h
          · exact Or.inl h
          · exact Or.inr (List.mem_cons_of_mem i h)

/-! ## payoutLoop lemmas -/

theorem payoutLoop_length (share : ℚ) (nw : ℕ) (ws : List ℕ)
    (players : List PlayerState) (wins : List ℚ) (tw : ℚ) (payouts : List ℚ) :
    (payoutLoop share nw ws players wins tw payouts).1.length = players.length ∧
      (payoutLoop share nw ws players wins tw payouts).2.1.length = wins.length ∧
      (payoutLoop share nw ws players wins tw payouts).2.2.2.length =
        payouts.length := by
  induction ws generalizing players wins tw payouts with
  | nil => simp [payoutLoop]
  | cons w rest ih =>
    simp only [payoutLoop]
    obtain ⟨h1, h2, h3⟩ := ih (players.set w _) (wins.set w _) _ (payouts.set w _)
    exact ⟨by rw [h1]; simp, by rw [h2]; simp, by rw [h3]; simp⟩

theorem payoutLoop_untouched (share : ℚ) (nw : ℕ) (ws : List ℕ)
    (players : List PlayerState) (wins : List ℚ) (tw : ℚ) (payouts : List ℚ)
    {j : ℕ} (hj : j ∉ ws) :
    (payoutLoop share nw ws players wins tw payouts).1.getD j dummyPlayer =
        players.getD j dummyPlayer ∧
      (payoutLoop share nw ws players wins tw payouts).2.1.getD j 0 =
        wins.getD j 0 ∧
      (payoutLoop share nw ws players wins tw payouts).2.2.2.getD j 0 =
        payouts.getD j 0 := by
  induction ws generalizing players wins tw payouts with
  | nil => simp [payoutLoop]
  | cons w rest ih =>
    have hji : j ≠ w := fun h => hj (h ▸ List.mem_cons_self w rest)
    have hjr : j ∉ rest := fun h => hj (List.mem_cons_of_mem w h)
    simp only [payoutLoop]
    obtain ⟨h1, h2, h3⟩ := ih (players.set w _) (wins.set w _) _ (payouts.set w _) hjr
    exact ⟨by rw [h1, getD_set_ne _ (Ne.symm hji)],
      by rw [h2, getD_set_ne _ (Ne.symm hji)],
      by rw [h3, getD_set_ne _ (Ne.symm hji)]⟩

theorem payoutLoop_NNs (share : ℚ) (nw : ℕ) (ws : List ℕ)
    (players : List PlayerState) (wins : List ℚ) (tw : ℚ) (payouts : List ℚ)
    (hall : NNs players) (hshare : 0 ≤ share) :
    NNs (payoutLoop share nw ws players wins tw payouts).1 := by
  induction ws generalizing players wins tw payouts with
  | nil => simpa [payoutLoop] using hall
  | cons w rest ih =>
    simp only [payoutLoop]
    have hp := hall w
    have hcap : (0 : ℚ) ≤ 4 * (BUY_IN + (players.getD w dummyPlayer).current_bet_r1 +
        (players.getD w dummyPlayer).current_bet_r2 +
        (players.getD w dummyPlayer).final_round_bet) := by
      have h1 := hp.2.1; have h2 := hp.2.2.1; have h3 := hp.2.2.2
      have hb : (0 : ℚ) ≤ BUY_IN := by norm_num [BUY_IN]
      linarith
    exact ih _ _ _ _ (NNs_set hall ⟨add_nonneg hp.1 (le_min hcap hshare), hp.2.1,
      hp.2.2.1, hp.2.2.2⟩)

theorem payoutLoop_total_le (share : ℚ) (nw : ℕ) (ws : List ℕ)
    (players : List PlayerState) (wins : List ℚ) (tw : ℚ) (payouts : List ℚ) :
    (payoutLoop share nw ws players wins tw payouts).2.2.1 ≤
      tw + (ws.length : ℚ) * share := by
  induction ws generalizing players wins tw payouts with
  | nil => simp [payoutLoop]
  | cons w rest ih =>
    simp only [payoutLoop]
    refine le_trans (ih _ _ _ _) ?_
    have hle : min (4 * (BUY_IN + (players.getD w dummyPlayer).current_bet_r1 +
        (players.getD w dummyPlayer).current_bet_r2 +
        (players.getD w dummyPlayer).final_round_bet)) share ≤ share :=
      min_le_right _ _
    simp only [List.length_cons]
    push_cast
    linarith

theorem payoutLoop_at (share : ℚ) (nw : ℕ) (ws : List ℕ)
    (players : List PlayerState) (wins : List ℚ) (tw : ℚ) (payouts : List ℚ)
    (hnodup : ws.Nodup) {w : ℕ} (hw : w ∈ ws) (hlen : w < players.length) :
    ((payoutLoop share nw ws players wins tw payouts).1.getD w dummyPlayer).stack =
        (players.getD w dummyPlayer).stack +
          min (4 * (BUY_IN + (players.getD w dummyPlayer).current_bet_r1 +
            (players.getD w dummyPlayer).current_bet_r2 +
            (players.getD w dummyPlayer).final_round_bet)) share ∧
      ((payoutLoop share nw ws players wins tw payouts).1.getD w
          dummyPlayer).current_bet_r1 = (players.getD w dummyPlayer).current_bet_r1 ∧
      ((payoutLoop share nw ws players wins tw payouts).1.getD w
          dummyPlayer).current_bet_r2 = (players.getD w dummyPlayer).current_bet_r2 ∧
      ((payoutLoop share nw ws players wins tw payouts).1.getD w
          dummyPlayer).final_round_bet = (players.getD w dummyPlayer).final_round_bet := by
  induction ws generalizing players wins tw payouts with
  | nil => simp at hw
  | cons k rest ih =>
    simp only [payoutLoop]
    rcases List.mem_cons.1 hw with rfl | hir
    · have hkr : w ∉ rest := (List.nodup_cons.1 hnodup).1
      obtain ⟨hu1, hu2, hu3⟩ := payoutLoop_untouched share nw rest
        (players.set w _) (wins.set w _) _ (payouts.set w _) hkr
      rw [hu1, getD_set_self _ hlen]
      exact ⟨rfl, rfl, rfl, rfl⟩
    · have hnd := (List.nodup_cons.1 hnodup).2
      have hki : w ≠ k := fun h => (List.nodup_cons.1 hnodup).1 (h ▸ hir)
      obtain ⟨h1, h2, h3, h4⟩ := ih (players.set k _) (wins.set k _) _ (payouts.set k _)
        hnd hir (by simpa using hlen)
      rw [getD_set_ne _ (Ne.symm hki)] at h1 h2 h3 h4
      exact ⟨h1, h2, h3, h4⟩

/-! ## redistribute lemmas -/

theorem redistribute_length (idxs : List ℕ) (share : ℚ)
    (players : List PlayerState) :
    (redistribute idxs share players).length = players.length := by
  induction idxs generalizing players with
  | nil => simp [redistribute]
  | cons i rest ih =>
    simp only [redistribute]
    rw [ih]; simp

theorem redistribute_untouched (idxs : List ℕ) (share : ℚ)
    (players : List PlayerState) {j : ℕ} (hj : j ∉ idxs) :
    (redistribute idxs share players).getD j dummyPlayer =
      players.getD j dummyPlayer := by
  induction idxs generalizing players with
  | nil => simp [redistribute]
  | cons i rest ih =>
    have hji : j ≠ i := fun h => hj (h ▸ List.mem_cons_self i rest)
    have hjr : j ∉ rest := fun h => hj (List.mem_cons_of_mem i h)
    simp only [redistribute]
    rw [ih _ hjr, getD_set_ne _ (Ne.symm hji)]

theorem redistribute_NNs (idxs : List ℕ) (share : ℚ) (players : List PlayerState)
    (hall : NNs players) (hshare : 0 ≤ share) :
    NNs (redistribute idxs share players) := by
  induction idxs generalizing players with
  | nil => simpa [redistribute] using hall
  | cons i rest ih =>
    simp only [redistribute]
    have hp := hall i
    exact ih _ (NNs_set hall ⟨add_nonneg hp.1 hshare, hp.2.1, hp.2.2.1, hp.2.2.2⟩)

theorem redistribute_sum (idxs : List ℕ) (share : ℚ) (players : List PlayerState)
    (hb : ∀ i ∈ idxs, i < players.length) :
    stacksSum (redistribute idxs share players) =
      stacksSum players + (idxs.length : ℚ) * share := by
  induction idxs generalizing players with
  | nil => simp [redistribute]
  | cons i rest ih =>
    simp only [redistribute]
    have hi : i < players.length := hb i (List.mem_cons_self i rest)
    have hrest : ∀ j ∈ rest, j < (players.set i { players.getD i dummyPlayer with
        stack := (players.getD i dummyPlayer).stack + share }).length := by
      intro j hj
      have := hb j (List.mem_cons_of_mem i hj)
      simpa using this
    rw [ih _ hrest, stacksSum_set players hi]
    simp only [List.length_cons]
    push_cast
    ring

/-! ## Stage-level facts -/

theorem buyInStage_facts (env : Env) (g : ℕ) (st : MatchState)
    (hst : ∀ p ∈ st.players, 0 ≤ p.stack) :
    (buyInStage env g st).players.length = st.players.length ∧
      0 ≤ (buyInStage env g st).pot ∧
      (∀ j : ℕ, CleanNN ((buyInStage env g st).players.getD j dummyPlayer)) ∧
      (buyInStage env g st).active.Sublist (List.range st.players.length) ∧
      (buyInStage env g st).community.length = 5 := by
  have hidx : ∀ j : ℕ, j ∈ List.range st.players.length ∨
      CleanNN (st.players.getD j dummyPlayer) := by
    intro j
    by_cases hj : j < st.players.length
    · exact Or.inl (List.mem_range.2 hj)
    · right
      rw [getD_of_len_le _ (not_lt.1 hj)]
      exact CleanNN_dummy
  obtain ⟨h1, h2, h3⟩ := buyInLoop_master (List.range st.players.length) st.players 0
    (env.shuffledDeck g) [] hst (le_refl 0) hidx
  obtain ⟨s2, hs2, hsub⟩ := buyInLoop_active (List.range st.players.length)
    st.players 0 (env.shuffledDeck g) []
  refine ⟨?_, h2, h3, ?_, ?_⟩
  · simpa [buyInStage] using buyInLoop_length (List.range st.players.length)
      st.players 0 (env.shuffledDeck g) []
  · have : (buyInStage env g st).active = s2 := by simpa [buyInStage] using hs2
    rw [this]; exact hsub
  · simpa [buyInStage] using popN_fst_length 5 _

theorem r1Stage_facts (env : Env) (g : ℕ) (n : ℕ) (a : BuyInOut)
    (hclean : ∀ j : ℕ, CleanNN (a.players.getD j dummyPlayer)) (hpot : 0 ≤ a.pot)
    (hn : a.players.length = n) :
    (r1Stage env g n a).players.length = n ∧
      (r1Stage env g n a).r1bets.length = n ∧
      NNs (r1Stage env g n a).players ∧
      0 ≤ (r1Stage env g n a).pot ∧
      (r1Stage env g n a).r1active.Sublist a.active ∧
      (r1Stage env g n a).postFold.Sublist (r1Stage env g n a).r1active ∧
      (∀ j : ℕ, ((r1Stage env g n a).players.getD j dummyPlayer).current_bet_r1 =
        (r1Stage env g n a).r1bets.getD j 0) ∧
      (r1Stage env g n a).stacksAfterR1 = (r1Stage env g n a).players.map (·.stack) := by
  obtain ⟨he1, he2⟩ := r1ElimLoop_master a.active a.players a.pot [] hclean hpot
  have helen : (r1ElimLoop a.active a.players a.pot []).1.length = a.players.length :=
    r1ElimLoop_length _ _ _ _
  obtain ⟨hs2, hs2e, hs2sub⟩ := r1ElimLoop_active a.active a.players a.pot []
  have hNN : NNs (r1ElimLoop a.active a.players a.pot []).1 :=
    fun j => (he1 j).toNN
  obtain ⟨hm1, hm2⟩ := r1Loop_master env g (a.community.take 3)
    (a.players.map (·.stack)) (r1ElimLoop a.active a.players a.pot []).2.2.length
    (r1ElimLoop a.active a.players a.pot []).2.2
    (r1ElimLoop a.active a.players a.pot []).1
    (r1ElimLoop a.active a.players a.pot []).2.1 (List.replicate n 0) hNN he2
  obtain ⟨hl1, hl2⟩ := r1Loop_length env g (a.community.take 3)
    (a.players.map (·.stack)) (r1ElimLoop a.active a.players a.pot []).2.2.length
    (r1ElimLoop a.active a.players a.pot []).2.2
    (r1ElimLoop a.active a.players a.pot []).1
    (r1ElimLoop a.active a.players a.pot []).2.1 (List.replicate n 0)
  have hag := r1Loop_agree env g (a.community.take 3) (a.players.map (·.stack))
    (r1ElimLoop a.active a.players a.pot []).2.2.length
    (r1ElimLoop a.active a.players a.pot []).2.2
    (r1ElimLoop a.active a.players a.pot []).1
    (r1ElimLoop a.active a.players a.pot []).2.1 (List.replicate n 0)
    (by rw [List.length_replicate, helen, hn])
    (by
      intro j
      rw [(he1 j).2.1, getD_replicate]
      split <;> rfl)
  refine ⟨by simp [r1Stage, hl1, helen, hn], by simp [r1Stage, hl2], ?_, ?_, ?_, ?_,
    ?_, rfl⟩
  · intro j; simpa [r1Stage] using hm1 j
  · simpa [r1Stage] using hm2
  · have : (r1Stage env g n a).r1active = hs2 := by simpa [r1Stage] using hs2e
    rw [this]; exact hs2sub
  · simp only [r1Stage]
    exact List.filter_sublist _
  · intro j; simpa [r1Stage] using hag j

theorem r2Stage_facts (env : Env) (g : ℕ) (n : ℕ) (a : BuyInOut) (r : R1Out)
    (hNN : NNs r.players) (hpot : 0 ≤ r.pot) :
    (r2Stage env g n a r).players.length = r.players.length ∧
      (r2Stage env g n a r).r2bets.length = n ∧
      NNs (r2Stage env g n a r).players ∧
      0 ≤ (r2Stage env g n a r).pot := by
  obtain ⟨hm1, hm2⟩ := r2Loop_master env g (a.community.take 4) r.r1bets
    r.current_stacks r.postFold.length r.postFold r.players r.pot
    (List.replicate n 0) hNN hpot
  obtain ⟨hl1, hl2⟩ := r2Loop_length env g (a.community.take 4) r.r1bets
    r.current_stacks r.postFold.length r.postFold r.players r.pot
    (List.replicate n 0)
  exact ⟨by simpa [r2Stage] using hl1, by simpa [r2Stage] using hl2,
    fun j => by simpa [r2Stage] using hm1 j, by simpa [r2Stage] using hm2⟩

theorem r3Stage_facts (env : Env) (g : ℕ) (n : ℕ) (a : BuyInOut) (r : R1Out)
    (s : R2Out) (hNN : NNs s.players) (hpot : 0 ≤ s.pot) :
    (r3Stage env g n a r s).players.length = s.players.length ∧
      (r3Stage env g n a r s).r3bets.length = n ∧
      NNs (r3Stage env g n a r s).players ∧
      0 ≤ (r3Stage env g n a r s).pot := by
  obtain ⟨hm1, hm2⟩ := r3Loop_master env g a.community r.r1bets s.r2bets
    r.current_stacks r.postFold.length r.postFold s.players s.pot
    (List.replicate n 0) hNN hpot
  obtain ⟨hl1, hl2⟩ := r3Loop_length env g a.community r.r1bets s.r2bets
    r.current_stacks r.postFold.length r.postFold s.players s.pot
    (List.replicate n 0)
  exact ⟨by simpa [r3Stage] using hl1, by simpa [r3Stage] using hl2,
    fun j => by simpa [r3Stage] using hm1 j, by simpa [r3Stage] using hm2⟩

theorem showStage_facts (env : Env) (a : BuyInOut) (t : R3Out)
    (hNN : NNs t.players) :
    (showStage env a t).players.length = t.players.length ∧
      NNs (showStage env a t).players ∧
      (∀ w ∈ (showStage env a t).winners, w ∈ a.active) := by
  have hlen := showdownLoop_length env.evalFive a.community a.active t.players
    7463 [] []
  have hnns := showdownLoop_NNs env.evalFive a.community a.active t.players
    7463 [] [] hNN
  refine ⟨by simpa [showStage] using hlen,
    fun j => by simpa [showStage] using hnns j, ?_⟩
  intro w hw
  have := showdownLoop_winners env.evalFive a.community a.active t.players 7463 [] []
    w (by simpa [showStage] using hw)
  rcases this with h | h
  · simp at h
  · exact h

/-- A funded seat's ledger after the buy-in loop: the stack is debited by
exactly `BUY_IN`. -/
theorem buyInLoop_funded (idxs : List ℕ) (players : List PlayerState) (pot : ℚ)
    (deal : List Card) (active : List ℕ) (hnodup : idxs.Nodup) :
    ∀ i ∈ idxs, i ∈ (buyInLoop idxs players pot deal active).2.2.2 → i ∉ active →
      ((buyInLoop idxs players pot deal active).1.getD i dummyPlayer).stack =
        (players.getD i dummyPlayer).stack - BUY_IN := by
  induction idxs generalizing players pot deal active with
  | nil => intro i hi; simp at hi
  | cons k rest ih =>
    intro i hi hact hia
    have hknr : k ∉ rest := (List.nodup_cons.1 hnodup).1
    have hnd : rest.Nodup := (List.nodup_cons.1 hnodup).2
    rcases List.mem_cons.1 hi with rfl | hir
    · simp only [buyInLoop] at hact ⊢
      split at hact
      · obtain ⟨s, hs, hsub⟩ := buyInLoop_active rest
          (players.set i (resetRound (players.getD i dummyPlayer))) pot deal active
        rw [hs] at hact
        rcases List.mem_append.1 hact with h | h
        · exact absurd h hia
        · exact absurd (hsub.subset h) hknr
      · split at hact
        · obtain ⟨s, hs, hsub⟩ := buyInLoop_active rest (players.set i _) _ deal active
          rw [hs] at hact
          rcases List.mem_append.1 hact with h | h
          · exact absurd h hia
          · exact absurd (hsub.subset h) hknr
        · rename_i hlost hpoor
          rw [if_neg hlost, if_neg hpoor]
          have hrich : BUY_IN ≤ (resetRound (players.getD i dummyPlayer)).stack :=
            not_lt.1 hpoor
          have hlen : i < players.length := by
            by_contra hc
            rw [getD_of_len_le _ (not_lt.1 hc)] at hrich
            simp only [resetRound, dummyPlayer] at hrich
            norm_num [BUY_IN] at hrich
          rw [buyInLoop_untouched _ _ _ _ _ hknr, getD_set_self _ hlen]
          simp [resetRound]
    · have hik : i ≠ k := fun h => hknr (h ▸ hir)
      simp only [buyInLoop] at hact ⊢
      split at hact
      · rename_i hc1
        rw [if_pos hc1, ih _ _ _ _ hnd i hir hact hia, getD_set_ne _ (Ne.symm hik)]
      · split at hact
        · rename_i hc1 hc2
          rw [if_neg hc1, if_pos hc2, ih _ _ _ _ hnd i hir hact hia,
            getD_set_ne _ (Ne.symm hik)]
        · rename_i hc1 hc2
          have hia2 : i ∉ active ++ [k] := by
            intro h
            rcases List.mem_append.1 h with h | h
            · exact hia h
            · simp at h; exact hik h
          rw [if_neg hc1, if_neg hc2, ih _ _ _ _ hnd i hir hact hia2,
            getD_set_ne _ (Ne.symm hik)]

/-- A seat already marked eliminated is only reset by the buy-in loop and is
not dealt in. -/
theorem buyInLoop_lost (idxs : List ℕ) (players : List PlayerState) (pot : ℚ)
    (deal : List Card) (active : List ℕ) (hnodup : idxs.Nodup) :
    ∀ i ∈ idxs, (players.getD i dummyPlayer).is_lost_match = true → i ∉ active →
      (buyInLoop idxs players pot deal active).1.getD i dummyPlayer =
          resetRound (players.getD i dummyPlayer) ∧
        i ∉ (buyInLoop idxs players pot deal active).2.2.2 := by
  induction idxs generalizing players pot deal active with
  | nil => intro i hi; simp at hi
  | cons k rest ih =>
    intro i hi hlost hia
    have hknr : k ∉ rest := (List.nodup_cons.1 hnodup).1
    have hnd : rest.Nodup := (List.nodup_cons.1 hnodup).2
    rcases List.mem_cons.1 hi with rfl | hir
    · have hcond : (resetRound (players.getD i dummyPlayer)).is_lost_match = true := by
        simpa [resetRound] using hlost
      simp only [buyInLoop]
      rw [if_pos hcond]
      obtain ⟨s, hs, hsub⟩ := buyInLoop_active rest
        (players.set i (resetRound (players.getD i dummyPlayer))) pot deal active
      constructor
      · rw [buyInLoop_untouched _ _ _ _ _ hknr]
        by_cases hlen : i < players.length
        · rw [getD_set_self _ hlen]
        · rw [getD_of_len_le _ (by simpa using not_lt.1 hlen),
            getD_of_len_le _ (not_lt.1 hlen)]
          simp [resetRound, dummyPlayer]
      · rw [hs]
        intro h
        rcases List.mem_append.1 h with h | h
        · exact hia h
        · exact hknr (hsub.subset h)
    · have hik : i ≠ k := fun h => hknr (h ▸ hir)
      have hset : ∀ v : PlayerState,
          ((players.set k v).getD i dummyPlayer).is_lost_match = true := by
        intro v
        rwa [getD_set_ne _ (Ne.symm hik)]
      simp only [buyInLoop]
      split
      · obtain ⟨h1, h2⟩ := ih (players.set k (resetRound (players.getD k dummyPlayer)))
          pot deal active hnd i hir (hset _) hia
        rw [getD_set_ne _ (Ne.symm hik)] at h1
        exact ⟨h1, h2⟩
      · split
        · obtain ⟨h1, h2⟩ := ih (players.set k
              { resetRound (players.getD k dummyPlayer) with
                  stack := 0, is_lost_match := true })
            (pot + (resetRound (players.getD k dummyPlayer)).stack) deal active
            hnd i hir (hset _) hia
          rw [getD_set_ne _ (Ne.symm hik)] at h1
          exact ⟨h1, h2⟩
        · have hia2 : i ∉ active ++ [k] := by
            intro h
            rcases List.mem_append.1 h with h | h
            · exact hia h
            · simp at h; exact hik h
          obtain ⟨h1, h2⟩ := ih (players.set k
              { resetRound (players.getD k dummyPlayer) with
                  stack := (resetRound (players.getD k dummyPlayer)).stack - BUY_IN,
                  hole_cards := [(deckPop deal).1, (deckPop (deckPop deal).2).1] })
            (pot + BUY_IN) (deckPop (deckPop deal).2).2 (active ++ [k])
            hnd i hir (hset _) hia2
          rw [getD_set_ne _ (Ne.symm hik)] at h1
          exact ⟨h1, h2⟩

/-- A seat outside `active_players_indices` is untouched by Round 1 and is in
neither survivor set. -/
theorem r1Stage_untouched (env : Env) (g : ℕ) (n : ℕ) (a : BuyInOut) {i : ℕ}
    (hi : i ∉ a.active) :
    (r1Stage env g n a).players.getD i dummyPlayer = a.players.getD i dummyPlayer ∧
      i ∉ (r1Stage env g n a).r1active ∧ i ∉ (r1Stage env g n a).postFold := by
  obtain ⟨s, hs, hsub⟩ := r1ElimLoop_active a.active a.players a.pot []
  have hi2 : i ∉ (r1ElimLoop a.active a.players a.pot []).2.2 := by
    rw [hs]; simpa using fun h => hi (hsub.subset h)
  have hu1 := (r1Loop_untouched env g (a.community.take 3) (a.players.map (·.stack))
    (r1ElimLoop a.active a.players a.pot []).2.2.length
    (r1ElimLoop a.active a.players a.pot []).2.2
    (r1ElimLoop a.active a.players a.pot []).1
    (r1ElimLoop a.active a.players a.pot []).2.1 (List.replicate n 0) hi2).1
  have hu0 := r1ElimLoop_untouched a.active a.players a.pot [] hi
  refine ⟨by simp only [r1Stage]; rw [hu1, hu0], by simpa [r1Stage] using hi2, ?_⟩
  simp only [r1Stage]
  intro h
  exact hi2 (List.mem_of_mem_filter h)

/-- A seat that did not survive Round 1 is untouched by Round 2. -/
theorem r2Stage_untouched (env : Env) (g : ℕ) (n : ℕ) (a : BuyInOut) (r : R1Out)
    {i : ℕ} (hi : i ∉ r.postFold) :
    (r2Stage env g n a r).players.getD i dummyPlayer =
      r.players.getD i dummyPlayer := by
  simpa [r2Stage] using (r2Loop_untouched env g (a.community.take 4) r.r1bets
    r.current_stacks r.postFold.length r.postFold r.players r.pot
    (List.replicate n 0) hi).1

/-- A seat that did not survive Round 1 is untouched by Round 3. -/
theorem r3Stage_untouched (env : Env) (g : ℕ) (n : ℕ) (a : BuyInOut) (r : R1Out)
    (s : R2Out) {i : ℕ} (hi : i ∉ r.postFold) :
    (r3Stage env g n a r s).players.getD i dummyPlayer =
      s.players.getD i dummyPlayer := by
  simpa [r3Stage] using (r3Loop_untouched env g a.community r.r1bets s.r2bets
    r.current_stacks r.postFold.length r.postFold s.players s.pot
    (List.replicate n 0) hi).1

/-- A seat outside `active_players_indices` is untouched by the showdown
evaluation loop. -/
theorem showStage_untouched (env : Env) (a : BuyInOut) (t : R3Out) {i : ℕ}
    (hi : i ∉ a.active) :
    (showStage env a t).players.getD i dummyPlayer =
      t.players.getD i dummyPlayer := by
  simpa [showStage] using showdownLoop_untouched env.evalFive a.community a.active
    t.players 7463 [] [] hi

/-- The ghost payout record of one winner: exactly
`min(winning_cap, winning_pot_share_max)`. -/
theorem payoutLoop_payout_at (share : ℚ) (nw : ℕ) (ws : List ℕ)
    (players : List PlayerState) (wins : List ℚ) (tw : ℚ) (payouts : List ℚ)
    (hnodup : ws.Nodup) {w : ℕ} (hw : w ∈ ws) (hblen : w < payouts.length) :
    (payoutLoop share nw ws players wins tw payouts).2.2.2.getD w 0 =
      min (4 * (BUY_IN + (players.getD w dummyPlayer).current_bet_r1 +
        (players.getD w dummyPlayer).current_bet_r2 +
        (players.getD w dummyPlayer).final_round_bet)) share := by
  induction ws generalizing players wins tw payouts with
  | nil => simp at hw
  | cons k rest ih =>
    simp only [payoutLoop]
    rcases List.mem_cons.1 hw with rfl | hir
    · have hkr : w ∉ rest := (List.nodup_cons.1 hnodup).1
      obtain ⟨hu1, hu2, hu3⟩ := payoutLoop_untouched share nw rest
        (players.set w _) (wins.set w _) _ (payouts.set w _) hkr
      rw [hu3, getD_set_self _ hblen]
    · have hnd := (List.nodup_cons.1 hnodup).2
      have hki : w ≠ k := fun h => (List.nodup_cons.1 hnodup).1 (h ▸ hir)
      have := ih
        (players.set k
          { players.getD k dummyPlayer with
              stack := (players.getD k dummyPlayer).stack +
                min (4 * (BUY_IN + (players.getD k dummyPlayer).current_bet_r1 +
                    (players.getD k dummyPlayer).current_bet_r2 +
                    (players.getD k dummyPlayer).final_round_bet)) share })
        (wins.set k (wins.getD k 0 + 1 / (nw : ℚ)))
        (tw + min (4 * (BUY_IN + (players.getD k dummyPlayer).current_bet_r1 +
          (players.getD k dummyPlayer).current_bet_r2 +
          (players.getD k dummyPlayer).final_round_bet)) share)
        (payouts.set k (min (4 * (BUY_IN + (players.getD k dummyPlayer).current_bet_r1 +
          (players.getD k dummyPlayer).current_bet_r2 +
          (players.getD k dummyPlayer).final_round_bet)) share))
        hnd hir (by simpa using hblen)
      rwa [getD_set_ne _ (Ne.symm hki)] at this

/-- The `break` of main.py line 115 is absorbing: once the halted flag is
set no later game changes the state. -/
theorem reach_halted_absorb (env : Env) (k j : ℕ) (h : (reach env k).2 = true) :
    reach env (k + j) = reach env k := by
  induction j with
  | zero => rfl
  | succ j ih =>
    show reach env (k + j + 1) = reach env k
    rw [reach]
    have h2 : (reach env (k + j)).2 = true := by rw [ih]; exact h
    simp only [ih, h, if_true]

/-- A Monte Carlo trial is skipped exactly when the safety check of
engine_core.py line 173 fires; with a length-preserving shuffle this does
not depend on the trial index. -/
theorem equityTrial_none_iff (evalFive : List Card → ℕ)
    (shuffle : ℕ → List Card → List Card) (hero_hand current_board rd : List Card)
    (no : ℤ) (t : ℕ) (hshuf : ∀ u d, (shuffle u d).length = d.length) :
    equityTrial evalFive shuffle hero_hand current_board rd no t = none ↔
      5 - (current_board.length : ℤ) + 2 * no > (rd.length : ℤ) := by
  simp only [equityTrial, hshuf t rd]
  split
  · rename_i hc
    simp [hc]
  · rename_i hc
    simp [hc]

/-- Closed form of the estimator: the accumulated `wins` is the sum of the
per-trial contributions. -/
theorem calculate_multiplayer_equity_eq (evalFive : List Card → ℕ)
    (shuffle : ℕ → List Card → List Card) (hero_hand current_board : List Card)
    (num_players iterations : ℕ) :
    calculate_multiplayer_equity evalFive shuffle hero_hand current_board
        num_players iterations =
      if iterations = 0 then 0
      else equityContribSum evalFive shuffle hero_hand current_board num_players
        iterations / (iterations : ℚ) * 100 / 100 := by
  simp only [calculate_multiplayer_equity, equityContribSum, remainingDeckOf]
  rw [foldl_add_sum, zero_add]

/-- With a length-preserving shuffle the skip check is all-or-nothing: if it
fires, no trial runs and every contribution is 0. -/
theorem equity_all_skip (evalFive : List Card → ℕ)
    (shuffle : ℕ → List Card → List Card) (hero_hand current_board : List Card)
    (num_players iterations : ℕ)
    (hshuf : ∀ u d, (shuffle u d).length = d.length)
    (hcond : 5 - (current_board.length : ℤ) + 2 * ((num_players : ℤ) - 1) >
      ((remainingDeckOf hero_hand current_board).length : ℤ)) :
    equityTrialsRun evalFive shuffle hero_hand current_board num_players
        iterations = 0 ∧
      equityContribSum evalFive shuffle hero_hand current_board num_players
        iterations = 0 := by
  have hnone : ∀ t, equityTrial evalFive shuffle hero_hand current_board
      (remainingDeckOf hero_hand current_board) ((num_players : ℤ) - 1) t = none :=
    fun t => (equityTrial_none_iff evalFive shuffle hero_hand current_board _ _ t
      hshuf).2 hcond
  constructor
  · simp only [equityTrialsRun]
    rw [List.filter_eq_nil_iff.2 (fun t _ => by simp [hnone t])]
    rfl
  · simp only [equityContribSum]
    refine List.sum_eq_zero ?_
    intro x hx
    obtain ⟨t, ht, rfl⟩ := List.mem_map.1 hx
    rw [hnone t]
    rfl

/-- With a length-preserving shuffle, if the skip check does not fire then
every requested trial runs. -/
theorem equity_all_run (evalFive : List Card → ℕ)
    (shuffle : ℕ → List Card → List Card) (hero_hand current_board : List Card)
    (num_players iterations : ℕ)
    (hshuf : ∀ u d, (shuffle u d).length = d.length)
    (hcond : ¬ (5 - (current_board.length : ℤ) + 2 * ((num_players : ℤ) - 1) >
      ((remainingDeckOf hero_hand current_board).length : ℤ))) :
    equityTrialsRun evalFive shuffle hero_hand current_board num_players
      iterations = iterations := by
  simp only [equityTrialsRun]
  rw [List.filter_eq_self.2 ?_]
  · exact List.length_range iterations
  · intro t _
    rw [Option.isSome_iff_ne_none]
    intro h
    exact hcond ((equityTrial_none_iff evalFive shuffle hero_hand current_board
      _ _ t hshuf).1 h)

/-- The simulation deck of the equity estimator. -/
theorem get_clean_deck_nodup : get_clean_deck.Nodup := by decide

/-- Removing the known cards costs at most `|hero| + |board|` of the 52
simulation cards. -/
theorem remainingDeckOf_length (hero_hand current_board : List Card) :
    52 ≤ (remainingDeckOf hero_hand current_board).length +
      (hero_hand.length + current_board.length) := by
  have h1 : get_clean_deck.length =
      (get_clean_deck.filter
        (fun c => (hero_hand ++ current_board).contains c)).length +
      (remainingDeckOf hero_hand current_board).length := by
    simpa [remainingDeckOf] using @List.length_eq_length_filter_add _ get_clean_deck
      (fun c => (hero_hand ++ current_board).contains c)
  have h2 : (get_clean_deck.filter
      (fun c => (hero_hand ++ current_board).contains c)).length ≤
      hero_hand.length + current_board.length := by
    have hsub : get_clean_deck.filter
        (fun c => (hero_hand ++ current_board).contains c) ⊆
        hero_hand ++ current_board := by
      intro x hx
      exact List.mem_of_elem_eq_true (List.mem_filter.1 hx).2
    have hnd : (get_clean_deck.filter
        (fun c => (hero_hand ++ current_board).contains c)).Nodup :=
      List.Nodup.filter _ get_clean_deck_nodup
    simpa using (hnd.subperm hsub).length_le
  have h3 : get_clean_deck.length = 52 := by decide
  omega

/-- With a treys-bounded oracle (scores at most 7462), any 7-card hand
evaluates strictly below the sentinel 7463. -/
theorem evaluate_best_hand_lt (evalFive : List Card → ℕ)
    (hb : ∀ cs, evalFive cs ≤ 7462) (cards : List Card)
    (h7 : cards.length = 7) :
    evaluate_best_hand evalFive cards < 7463 := by
  have hlen : (cards.sublistsLen 5).length = 21 := by
    rw [List.length_sublistsLen, h7]
    decide
  have hne : cards.sublistsLen 5 ≠ [] := by
    intro h
    rw [h] at hlen
    simp at hlen
  obtain ⟨c, hc⟩ := List.exists_mem_of_ne_nil _ hne
  have hm : evalFive c ∈ (cards.sublistsLen 5).map evalFive :=
    List.mem_map_of_mem evalFive hc
  have := foldl_min_le_of_mem _ _ hm 7463
  calc evaluate_best_hand evalFive cards ≤ evalFive c := this
    _ ≤ 7462 := hb c
    _ < 7463 := by norm_num

/-- With no opponents, a trial that can complete the board always
contributes a full win. -/
theorem equityTrial_no_opponents (evalFive : List Card → ℕ)
    (shuffle : ℕ → List Card → List Card) (hero_hand current_board rd : List Card)
    (t : ℕ) (hshuf : ∀ u d, (shuffle u d).length = d.length)
    (hb : ∀ cs, evalFive cs ≤ 7462) (hh2 : hero_hand.length = 2)
    (hcb : current_board.length ≤ 5)
    (hrd : 5 - (current_board.length : ℤ) ≤ (rd.length : ℤ)) :
    equityTrial evalFive shuffle hero_hand current_board rd 0 t = some 1 := by
  have hcond : ¬ (5 - (current_board.length : ℤ) + 2 * 0 >
      ((shuffle t rd).length : ℤ)) := by
    rw [hshuf t rd]
    omega
  simp only [equityTrial]
  rw [if_neg hcond]
  have hrun : ((shuffle t rd).take (5 - (current_board.length : ℤ)).toNat).length =
      5 - current_board.length := by
    rw [List.length_take, hshuf t rd]
    omega
  have h7 : (hero_hand ++ (current_board ++
      (shuffle t rd).take (5 - (current_board.length : ℤ)).toNat)).length = 7 := by
    simp only [List.length_append, hrun, hh2]
    omega
  have hlt := evaluate_best_hand_lt evalFive hb _ h7
  simp only [Int.toNat_zero, List.range_zero, List.map_nil]
  rw [if_pos hlt]

/-- Round 2 applied to one survivor, at the stage level. -/
theorem r2Stage_at (env : Env) (g : ℕ) (n : ℕ) (a : BuyInOut) (r : R1Out)
    (hnodup : r.postFold.Nodup) {i : ℕ} (hi : i ∈ r.postFold)
    (hlen : i < r.players.length) (hblen : i < n) :
    ∃ price : ℚ,
      (∃ val : ℚ, price =
        min (max ((r.players.getD i dummyPlayer).current_bet_r1 * (1 / 2))
          (min ((r.players.getD i dummyPlayer).current_bet_r1 * (3 / 2)) val))
          (r.players.getD i dummyPlayer).stack) ∧
      (r2Stage env g n a r).r2bets.getD i 0 = price ∧
      ((r2Stage env g n a r).players.getD i dummyPlayer).current_bet_r2 = price ∧
      ((r2Stage env g n a r).players.getD i dummyPlayer).stack =
        (r.players.getD i dummyPlayer).stack - price := by
  simpa [r2Stage] using r2Loop_at env g (a.community.take 4) r.r1bets
    r.current_stacks r.postFold.length r.postFold r.players r.pot
    (List.replicate n 0) hnodup hi hlen (by simpa using hblen)

/-- Round 3 applied to one survivor, at the stage level. -/
theorem r3Stage_at (env : Env) (g : ℕ) (n : ℕ) (a : BuyInOut) (r : R1Out)
    (s : R2Out) (hnodup : r.postFold.Nodup) {i : ℕ} (hi : i ∈ r.postFold)
    (hlen : i < s.players.length) (hblen : i < n) :
    ∃ price : ℚ,
      (∃ val : ℚ, price =
        min (max ((s.players.getD i dummyPlayer).current_bet_r2 * (3 / 4))
          (min ((s.players.getD i dummyPlayer).current_bet_r2 * (5 / 4)) val))
          (s.players.getD i dummyPlayer).stack) ∧
      (r3Stage env g n a r s).r3bets.getD i 0 = price ∧
      ((r3Stage env g n a r s).players.getD i dummyPlayer).final_round_bet = price ∧
      ((r3Stage env g n a r s).players.getD i dummyPlayer).stack =
        (s.players.getD i dummyPlayer).stack - price := by
  simpa [r3Stage] using r3Loop_at env g a.community r.r1bets s.r2bets
    r.current_stacks r.postFold.length r.postFold s.players s.pot
    (List.replicate n 0) hnodup hi hlen (by simpa using hblen)

/-- The buy-in stage of a hand: seats dealt in paid exactly the buy-in, and
a seat already marked eliminated is only reset and is not dealt in. -/
theorem buyInStage_funded (env : Env) (g : ℕ) (st : MatchState) :
    ∀ i ∈ (buyInStage env g st).active,
      ((buyInStage env g st).players.getD i dummyPlayer).stack =
        (st.players.getD i dummyPlayer).stack - BUY_IN := by
  intro i hi
  simp only [buyInStage] at hi ⊢
  obtain ⟨s2, hs2, hsub⟩ := buyInLoop_active (List.range st.players.length)
    st.players 0 (env.shuffledDeck g) []
  have hir : i ∈ List.range st.players.length := by
    rw [hs2] at hi
    simp only [List.nil_append] at hi
    exact hsub.subset hi
  exact buyInLoop_funded (List.range st.players.length) st.players 0
    (env.shuffledDeck g) [] (List.nodup_range _) i hir hi (by simp)

/-- A seat marked eliminated before the hand is only reset by the buy-in
stage and is not dealt in. -/
theorem buyInStage_lost (env : Env) (g : ℕ) (st : MatchState) {i : ℕ}
    (hlost : (st.players.getD i dummyPlayer).is_lost_match = true) :
    (buyInStage env g st).players.getD i dummyPlayer =
        resetRound (st.players.getD i dummyPlayer) ∧
      i ∉ (buyInStage env g st).active := by
  by_cases hn : i < st.players.length
  · simp only [buyInStage]
    exact buyInLoop_lost (List.range st.players.length) st.players 0
      (env.shuffledDeck g) [] (List.nodup_range _) i (List.mem_range.2 hn) hlost
      (by simp)
  · have hnr : i ∉ List.range st.players.length := by
      simpa using not_lt.1 hn
    constructor
    · simp only [buyInStage]
      rw [buyInLoop_untouched _ _ _ _ _ hnr, getD_of_len_le _ (not_lt.1 hn)]
      simp [resetRound, dummyPlayer]
    · intro hmem
      obtain ⟨s2, hs2, hsub⟩ := buyInLoop_active (List.range st.players.length)
        st.players 0 (env.shuffledDeck g) []
      simp only [buyInStage] at hmem
      rw [hs2] at hmem
      simp only [List.nil_append] at hmem
      exact hnr (hsub.subset hmem)

/-! ## Claim theorems -/

/-- C2 (amended): every showdown winner was dealt into the hand (is in
`active_players_indices`), and the redistribution recipient set (the players
who survived round 1) is nonempty whenever a showdown happens; but — contrary
to the original claim — a winner need not belong to that recipient set,
because a player eliminated at the round-1 affordability check is never
folded and still competes at showdown. -/
theorem c2_showdown_winner_set : ∀ (env : Env) (g : ℕ) (st : MatchState),
    (playHand env g st).2.kind = HandKind.showdown →
    (∀ w ∈ (playHand env g st).2.winners, w ∈ (playHand env g st).2.active) ∧
      (playHand env g st).2.r1postFold ≠ [] := by
  intro env g st
  simp only [playHand, lateResult]
  split
  · intro h; simp [emptyObs] at h
  · split
    · intro h; simp [earlyResult] at h
    · split
      · intro h; simp [truncResult] at h
      · split
        · intro h; simp [emptyObs] at h
        · intro _
          rename_i hge2 hne1 hne0 hwne
          constructor
          · intro w hw
            simp only [showdownResult] at hw ⊢
            have hwin := showdownLoop_winners env.evalFive
              (buyInStage env g st).community (buyInStage env g st).active
              (r3Stage env g st.players.length (buyInStage env g st)
                (r1Stage env g st.players.length (buyInStage env g st))
                (r2Stage env g st.players.length (buyInStage env g st)
                  (r1Stage env g st.players.length (buyInStage env g st)))).players
              7463 [] [] w (by simpa [showStage] using hw)
            rcases hwin with h | h
            · simp at h
            · exact h
          · simp only [showdownResult]
            intro hnil
            exact hne1 (by rw [hnil]; rfl)

theorem pointwise_mem {P : PlayerState → Prop} {ps : List PlayerState}
    (h : ∀ j : ℕ, P (ps.getD j dummyPlayer)) : ∀ p ∈ ps, P p := by
  intro p hp
  obtain ⟨m, hm, he⟩ := List.mem_iff_getElem.1 hp
  have h2 : ps.getD m dummyPlayer = p := by
    simp [List.getD_eq_getElem?_getD, List.getElem?_eq_getElem hm, he]
  rw [← h2]; exact h m

/-- `playHand` unfolded over named stage values. -/
theorem playHand_cases (env : Env) (g : ℕ) (st : MatchState) (a : BuyInOut)
    (r : R1Out) (hA : buyInStage env g st = a)
    (hR : r1Stage env g st.players.length a = r) :
    playHand env g st =
      if a.active.length < 2 then
        ({ st with players := a.players },
         { (emptyObs .halted) with active := a.active, board := a.community })
      else if r.postFold.length = 1 then earlyResult st a r
      else if r.postFold.length = 0 then truncResult st a r
      else lateResult env g st st.players.length a r := by
  subst hA; subst hR; rfl

/-- `lateResult` unfolded over named stage values. -/
theorem lateResult_cases (env : Env) (g : ℕ) (st : MatchState) (n : ℕ)
    (a : BuyInOut) (r : R1Out) (s : R2Out) (t : R3Out) (u : ShowOut)
    (hS : r2Stage env g n a r = s) (hT : r3Stage env g n a r s = t)
    (hU : showStage env a t = u) :
    lateResult env g st n a r =
      if r.postFold.length = 0 then
        ({ st with players := s.players },
         { (emptyObs .noR3) with
             potFinal := s.pot, active := a.active, r1active := r.r1active,
             r1postFold := r.postFold, r1bets := r.r1bets, r2bets := s.r2bets,
             stacksAfterR1 := r.stacksAfterR1, board := a.community })
      else if u.winners = [] then
        ({ st with players := u.players },
         { (emptyObs .noWinner) with
             potFinal := t.pot, active := a.active, r1active := r.r1active,
             r1postFold := r.postFold, r1bets := r.r1bets, r2bets := s.r2bets,
             r3bets := t.r3bets, stacksAfterR1 := r.stacksAfterR1,
             stacksBeforeR3 := s.players.map (·.stack), board := a.community })
      else showdownResult st a r s t u := by
  subst hS; subst hT; subst hU; rfl

set_option maxHeartbeats 800000 in
/-- C8: one hand of the match — buy-in debits, round-1/2/3 bet debits,
elimination forfeits, early and showdown payouts, and redistribution —
preserves nonnegativity of every player's stack. -/
theorem c8_stack_nonneg : ∀ (env : Env) (g : ℕ) (st : MatchState),
    (∀ p ∈ st.players, 0 ≤ p.stack) →
    ∀ p ∈ (playHand env g st).1.players, 0 ≤ p.stack := by
  intro env g st hst
  obtain ⟨a, hA⟩ : ∃ a, buyInStage env g st = a := ⟨_, rfl⟩
  obtain ⟨r, hR⟩ : ∃ r, r1Stage env g st.players.length a = r := ⟨_, rfl⟩
  obtain ⟨s, hS⟩ : ∃ s, r2Stage env g st.players.length a r = s := ⟨_, rfl⟩
  obtain ⟨t, hT⟩ : ∃ t, r3Stage env g st.players.length a r s = t := ⟨_, rfl⟩
  obtain ⟨u, hU⟩ : ∃ u, showStage env a t = u := ⟨_, rfl⟩
  have hb := buyInStage_facts env g st hst
  rw [hA] at hb
  obtain ⟨hblen, hbpot, hbclean, hbsub, hbcomm⟩ := hb
  have h1 := r1Stage_facts env g st.players.length a hbclean hbpot hblen
  rw [hR] at h1
  obtain ⟨h1len, h1blen, h1NN, h1pot, h1sub, h1post, h1ag, h1stk⟩ := h1
  have h2 := r2Stage_facts env g st.players.length a r h1NN h1pot
  rw [hS] at h2
  obtain ⟨h2len, h2blen, h2NN, h2pot⟩ := h2
  have h3 := r3Stage_facts env g st.players.length a r s h2NN h2pot
  rw [hT] at h3
  obtain ⟨h3len, h3blen, h3NN, h3pot⟩ := h3
  have h4 := showStage_facts env a t h3NN
  rw [hU] at h4
  obtain ⟨hslen, hsNN, hswin⟩ := h4
  rw [playHand_cases env g st a r hA hR,
    lateResult_cases env g st st.players.length a r s t u hS hT hU]
  split
  · exact pointwise_mem (fun j => (hbclean j).1)
  · split
    · -- early win
      simp only [earlyResult]
      have hw := h1NN (r.postFold.headD 0)
      have hcap : (0 : ℚ) ≤ 4 * (BUY_IN +
          (r.players.getD (r.postFold.headD 0) dummyPlayer).current_bet_r1) := by
        have := hw.2.1
        have hb : (0 : ℚ) ≤ BUY_IN := by norm_num [BUY_IN]
        linarith
      intro p hp
      rcases List.mem_or_eq_of_mem_set hp with hmem | heq
      · exact @pointwise_mem (fun q => 0 ≤ q.stack) r.players
          (fun j => (h1NN j).1) p hmem
      · subst heq
        exact add_nonneg hw.1 (le_min hcap h1pot)
    · split
      · -- truncated
        simp only [truncResult]
        exact pointwise_mem (fun j => (h1NN j).1)
      · split
        · -- no winner at showdown (degenerate)
          exact pointwise_mem (fun j => (hsNN j).1)
        · -- showdown with payouts and redistribution
          simp only [showdownResult, runPayouts]
          have hshare : (0 : ℚ) ≤ t.pot / (u.winners.length : ℚ) :=
            div_nonneg h3pot (by positivity)
          have hpayNN := payoutLoop_NNs (t.pot / (u.winners.length : ℚ))
            u.winners.length u.winners u.players st.wins 0
            (List.replicate u.players.length 0) hsNN hshare
          split
          · split
            · exact pointwise_mem (fun j => (hpayNN j).1)
            · rename_i hrem hpf
              have hrs : (0 : ℚ) ≤ t.pot -
                  (payoutLoop (t.pot / (u.winners.length : ℚ)) u.winners.length
                    u.winners u.players st.wins 0
                    (List.replicate u.players.length 0)).2.2.1 := le_of_lt hrem
              exact pointwise_mem (fun j =>
                ((redistribute_NNs r.postFold _ _ hpayNN
                  (div_nonneg hrs (by positivity))) j).1)
          · exact pointwise_mem (fun j => (hpayNN j).1)

/-- C5: at showdown each winner's actual payout is
`min(4 * (buy-in + that winner's round-1 + round-2 + round-3 bets),
pot / number_of_winners)` — the cap is applied per winner — and in
particular never exceeds the winner's own cap. -/
theorem c5_payout_cap (pot : ℚ) (winners : List ℕ) (players : List PlayerState)
    (wins : List ℚ) (hnodup : winners.Nodup) {w : ℕ} (hw : w ∈ winners)
    (hlen : w < players.length) :
    (runPayouts pot winners players wins).2.2.2.getD w 0 =
      min (4 * (BUY_IN + (players.getD w dummyPlayer).current_bet_r1 +
        (players.getD w dummyPlayer).current_bet_r2 +
        (players.getD w dummyPlayer).final_round_bet))
        (pot / (winners.length : ℚ)) ∧
    ((runPayouts pot winners players wins).1.getD w dummyPlayer).stack =
      (players.getD w dummyPlayer).stack +
        min (4 * (BUY_IN + (players.getD w dummyPlayer).current_bet_r1 +
          (players.getD w dummyPlayer).current_bet_r2 +
          (players.getD w dummyPlayer).final_round_bet))
          (pot / (winners.length : ℚ)) ∧
    (runPayouts pot winners players wins).2.2.2.getD w 0 ≤
      4 * (BUY_IN + (players.getD w dummyPlayer).current_bet_r1 +
        (players.getD w dummyPlayer).current_bet_r2 +
        (players.getD w dummyPlayer).final_round_bet) := by
  simp only [runPayouts]
  have h1 := payoutLoop_payout_at (pot / (winners.length : ℚ)) winners.length
    winners players wins 0 (List.replicate players.length 0) hnodup hw
    (by simpa using hlen)
  have h2 := (payoutLoop_at (pot / (winners.length : ℚ)) winners.length winners
    players wins 0 (List.replicate players.length 0) hnodup hw hlen).1
  exact ⟨h1, h2, by rw [h1]; exact min_le_left _ _⟩

/-- C7: if exactly one non-folded player remains after round 1, the hand is
an early fold-equity win: that player alone wins the whole hand, is paid
`min(pot, 4 * (buy-in + own round-1 bet))` on top of their post-round-1
stack, is credited one full win, and the appended history entry shows only
the first three of the five dealt community cards. -/
theorem c7_early_win (env : Env) (g : ℕ) (st : MatchState)
    (hst : ∀ p ∈ st.players, 0 ≤ p.stack)
    (hkind : (playHand env g st).2.kind = HandKind.early) :
    ∃ w : ℕ,
      (playHand env g st).2.winners = [w] ∧
      (playHand env g st).2.r1postFold = [w] ∧
      (playHand env g st).2.payoutTotal =
        min ((playHand env g st).2.potFinal)
          (4 * (BUY_IN + (playHand env g st).2.r1bets.getD w 0)) ∧
      ((playHand env g st).1.players.getD w dummyPlayer).stack =
        (playHand env g st).2.stacksAfterR1.getD w 0 +
          (playHand env g st).2.payoutTotal ∧
      (playHand env g st).1.wins = st.wins.set w (st.wins.getD w 0 + 1) ∧
      (∃ e : HandHistory, (playHand env g st).1.history = st.history ++ [e] ∧
        e.community_cards = (playHand env g st).2.board.take 3) ∧
      (playHand env g st).2.board.length = 5 := by
  obtain ⟨a, hA⟩ : ∃ a, buyInStage env g st = a := ⟨_, rfl⟩
  obtain ⟨r, hR⟩ : ∃ r, r1Stage env g st.players.length a = r := ⟨_, rfl⟩
  obtain ⟨s, hS⟩ : ∃ s, r2Stage env g st.players.length a r = s := ⟨_, rfl⟩
  obtain ⟨t, hT⟩ : ∃ t, r3Stage env g st.players.length a r s = t := ⟨_, rfl⟩
  obtain ⟨u, hU⟩ : ∃ u, showStage env a t = u := ⟨_, rfl⟩
  have hb := buyInStage_facts env g st hst
  rw [hA] at hb
  obtain ⟨hblen, hbpot, hbclean, hbsub, hbcomm⟩ := hb
  have h1 := r1Stage_facts env g st.players.length a hbclean hbpot hblen
  rw [hR] at h1
  obtain ⟨h1len, h1blen, h1NN, h1pot, h1sub, h1post, h1ag, h1stk⟩ := h1
  rw [playHand_cases env g st a r hA hR,
    lateResult_cases env g st st.players.length a r s t u hS hT hU] at hkind ⊢
  revert hkind
  split
  · intro hk
    simp [emptyObs] at hk
  · split
    · rename_i hone
      intro _
      obtain ⟨w0, hw0⟩ := List.length_eq_one.1 hone
      have hhead : r.postFold.headD 0 = w0 := by rw [hw0]; rfl
      have hw0mem : w0 ∈ r.postFold := by rw [hw0]; exact List.mem_cons_self _ _
      have hw0lt : w0 < st.players.length :=
        List.mem_range.1 (hbsub.subset (h1sub.subset (h1post.subset hw0mem)))
      have hw0r : w0 < r.players.length := by rw [h1len]; exact hw0lt
      refine ⟨w0, ?_⟩
      simp only [earlyResult]
      rw [hhead]
      refine ⟨rfl, hw0, ?_, ?_, rfl, ⟨_, rfl, rfl⟩, hbcomm⟩
      · rw [min_comm, h1ag w0]
      · rw [getD_set_self _ hw0r, h1stk, getD_map _ _ hw0r]
    · split
      · intro hk
        simp [truncResult] at hk
      · split
        · intro hk
          simp [emptyObs] at hk
        · intro hk
          simp [showdownResult] at hk

/-- C10: if fewer than two seats can post the buy-in the hand halts the
match for good, the collected buy-ins are not refunded (each funded seat
stays debited by the buy-in), no payout is made and no history entry is
written; and once the halted flag is set, no later game changes the state. -/
theorem c10_halt_no_refund (env : Env) (g : ℕ) (st : MatchState)
    (hhalt : (buyInStage env g st).active.length < 2) :
    ((playHand env g st).2.kind = HandKind.halted ∧
     (playHand env g st).2.payoutTotal = 0 ∧
     (playHand env g st).1.history = st.history ∧
     (∀ i ∈ (buyInStage env g st).active,
       ((playHand env g st).1.players.getD i dummyPlayer).stack =
         (st.players.getD i dummyPlayer).stack - BUY_IN)) ∧
    ∀ (env2 : Env) (k j : ℕ), (reach env2 k).2 = true →
      reach env2 (k + j) = reach env2 k := by
  constructor
  · have hfund := buyInStage_funded env g st
    obtain ⟨a, hA⟩ : ∃ a, buyInStage env g st = a := ⟨_, rfl⟩
    obtain ⟨r, hR⟩ : ∃ r, r1Stage env g st.players.length a = r := ⟨_, rfl⟩
    rw [hA] at hhalt hfund
    rw [playHand_cases env g st a r hA hR, if_pos hhalt, hA]
    exact ⟨rfl, rfl, rfl, hfund⟩
  · exact fun env2 k j h => reach_halted_absorb env2 k j h

/-- C1 (amended): for every completed hand the total paid out is at most the
hand's pot; the full accounting identity `payouts + redistributed = pot`
holds for showdown hands, but — contrary to the original claim — an
early-win or truncated hand redistributes nothing, so the un-paid part of
its pot is simply lost. -/
theorem c1_payout_accounting (env : Env) (g : ℕ) (st : MatchState)
    (hst : ∀ p ∈ st.players, 0 ≤ p.stack)
    (hkind : (playHand env g st).2.kind = HandKind.early ∨
      (playHand env g st).2.kind = HandKind.truncated ∨
      (playHand env g st).2.kind = HandKind.showdown) :
    (playHand env g st).2.payoutTotal ≤ (playHand env g st).2.potFinal ∧
    ((playHand env g st).2.kind = HandKind.showdown →
      (playHand env g st).2.payoutTotal + (playHand env g st).2.redistributed =
        (playHand env g st).2.potFinal) ∧
    ((playHand env g st).2.kind ≠ HandKind.showdown →
      (playHand env g st).2.redistributed = 0) := by
  obtain ⟨a, hA⟩ : ∃ a, buyInStage env g st = a := ⟨_, rfl⟩
  obtain ⟨r, hR⟩ : ∃ r, r1Stage env g st.players.length a = r := ⟨_, rfl⟩
  obtain ⟨s, hS⟩ : ∃ s, r2Stage env g st.players.length a r = s := ⟨_, rfl⟩
  obtain ⟨t, hT⟩ : ∃ t, r3Stage env g st.players.length a r s = t := ⟨_, rfl⟩
  obtain ⟨u, hU⟩ : ∃ u, showStage env a t = u := ⟨_, rfl⟩
  have hb := buyInStage_facts env g st hst
  rw [hA] at hb
  obtain ⟨hblen, hbpot, hbclean, hbsub, hbcomm⟩ := hb
  have h1 := r1Stage_facts env g st.players.length a hbclean hbpot hblen
  rw [hR] at h1
  obtain ⟨h1len, h1blen, h1NN, h1pot, h1sub, h1post, h1ag, h1stk⟩ := h1
  have h2 := r2Stage_facts env g st.players.length a r h1NN h1pot
  rw [hS] at h2
  obtain ⟨h2len, h2blen, h2NN, h2pot⟩ := h2
  have h3 := r3Stage_facts env g st.players.length a r s h2NN h2pot
  rw [hT] at h3
  obtain ⟨h3len, h3blen, h3NN, h3pot⟩ := h3
  have h4 := showStage_facts env a t h3NN
  rw [hU] at h4
  obtain ⟨hslen, hsNN, hswin⟩ := h4
  rw [playHand_cases env g st a r hA hR,
    lateResult_cases env g st st.players.length a r s t u hS hT hU] at hkind ⊢
  revert hkind
  split
  · intro hk
    rcases hk with h | h | h <;> simp [emptyObs] at h
  · split
    · intro _
      simp only [earlyResult]
      exact ⟨min_le_right _ _, fun h => by simp at h, fun _ => trivial⟩
    · split
      · intro _
        simp only [truncResult]
        exact ⟨h1pot, fun h => by simp at h, fun _ => trivial⟩
      · split
        · intro hk
          rcases hk with h | h | h <;> simp [emptyObs] at h
        · rename_i hge2 hne1 hne0 hwne
          intro _
          simp only [showdownResult]
          have hwlen : (u.winners.length : ℚ) ≠ 0 := by
            rw [Nat.cast_ne_zero]
            intro h
            exact hwne (List.length_eq_zero.1 h)
          have htot := payoutLoop_total_le (t.pot / (u.winners.length : ℚ))
            u.winners.length u.winners u.players st.wins 0
            (List.replicate u.players.length 0)
          have hle : (payoutLoop (t.pot / (u.winners.length : ℚ)) u.winners.length
              u.winners u.players st.wins 0
              (List.replicate u.players.length 0)).2.2.1 ≤ t.pot := by
            have hc : (u.winners.length : ℚ) * (t.pot / (u.winners.length : ℚ)) =
                t.pot := by
              rw [mul_comm]
              exact div_mul_cancel₀ t.pot hwlen
            rw [hc] at htot
            linarith
          refine ⟨hle, fun _ => ?_, fun h => absurd rfl h⟩
          simp only [runPayouts]
          split
          · rename_i hrem
            split
            · rename_i hpf
              exact absurd (by rw [hpf]; rfl) hne0
            · rename_i hpf
              have hpflen : (r.postFold.length : ℚ) ≠ 0 := by
                rw [Nat.cast_ne_zero]
                intro h
                exact hne0 h
              have hbnd : ∀ i ∈ r.postFold,
                  i < (payoutLoop (t.pot / (u.winners.length : ℚ))
                    u.winners.length u.winners u.players st.wins 0
                    (List.replicate u.players.length 0)).1.length := by
                intro i hi
                have hilt : i < st.players.length :=
                  List.mem_range.1
                    (hbsub.subset (h1sub.subset (h1post.subset hi)))
                rw [(payoutLoop_length _ _ _ _ _ _ _).1, hslen, h3len, h2len,
                  h1len]
                exact hilt
              rw [redistribute_sum _ _ _ hbnd]
              have hc2 : (r.postFold.length : ℚ) *
                  ((t.pot - (payoutLoop (t.pot / (u.winners.length : ℚ))
                    u.winners.length u.winners u.players st.wins 0
                    (List.replicate u.players.length 0)).2.2.1) /
                    (r.postFold.length : ℚ)) =
                  t.pot - (payoutLoop (t.pot / (u.winners.length : ℚ))
                    u.winners.length u.winners u.players st.wins 0
                    (List.replicate u.players.length 0)).2.2.1 := by
                rw [mul_comm]
                exact div_mul_cancel₀ _ hpflen
              rw [hc2]
              ring
          · rename_i hrem
            have hge : t.pot ≤ (payoutLoop (t.pot / (u.winners.length : ℚ))
                u.winners.length u.winners u.players st.wins 0
                (List.replicate u.players.length 0)).2.2.1 := by
              have := not_lt.1 hrem
              linarith
            have heq := le_antisymm hle hge
            rw [heq]
            ring

/-- C3 (amended): a player who enters a hand already marked eliminated is
only reset for the new hand — they post nothing, never act, win nothing and
their stack is unchanged.  The original claim is false: the stack of a
player marked eliminated need not be 0, because a player eliminated at the
round-1 affordability check stays in the showdown index set and can still
be paid. -/
theorem c3_eliminated_inert (env : Env) (g : ℕ) (st : MatchState) (i : ℕ)
    (hlost : (st.players.getD i dummyPlayer).is_lost_match = true) :
    (playHand env g st).1.players.getD i dummyPlayer =
      resetRound (st.players.getD i dummyPlayer) := by
  obtain ⟨hbp, hbact⟩ := buyInStage_lost env g st hlost
  obtain ⟨a, hA⟩ : ∃ a, buyInStage env g st = a := ⟨_, rfl⟩
  obtain ⟨r, hR⟩ : ∃ r, r1Stage env g st.players.length a = r := ⟨_, rfl⟩
  obtain ⟨s, hS⟩ : ∃ s, r2Stage env g st.players.length a r = s := ⟨_, rfl⟩
  obtain ⟨t, hT⟩ : ∃ t, r3Stage env g st.players.length a r s = t := ⟨_, rfl⟩
  obtain ⟨u, hU⟩ : ∃ u, showStage env a t = u := ⟨_, rfl⟩
  rw [hA] at hbp hbact
  have hr1 := r1Stage_untouched env g st.players.length a hbact
  rw [hR] at hr1
  obtain ⟨hr1p, hr1a, hr1pf⟩ := hr1
  have hr2 := r2Stage_untouched env g st.players.length a r hr1pf
  rw [hS] at hr2
  have hr3 := r3Stage_untouched env g st.players.length a r s hr1pf
  rw [hT] at hr3
  have hsh := showStage_untouched env a t hbact
  rw [hU] at hsh
  have hswin : ∀ w ∈ u.winners, w ∈ a.active := by
    intro w hw
    rw [← hU] at hw
    have h2 := showdownLoop_winners env.evalFive a.community a.active t.players
      7463 [] [] w (by simpa [showStage] using hw)
    rcases h2 with h | h
    · simp at h
    · exact h
  rw [playHand_cases env g st a r hA hR,
    lateResult_cases env g st st.players.length a r s t u hS hT hU]
  split
  · exact hbp
  · split
    · rename_i hone
      obtain ⟨w0, hw0⟩ := List.length_eq_one.1 hone
      have hhead : r.postFold.headD 0 = w0 := by rw [hw0]; rfl
      have hw0mem : w0 ∈ r.postFold := by rw [hw0]; exact List.mem_cons_self _ _
      have hne : r.postFold.headD 0 ≠ i := by
        rw [hhead]
        intro h
        exact hr1pf (h ▸ hw0mem)
      simp only [earlyResult]
      rw [getD_set_ne _ hne, hr1p, hbp]
    · split
      · simp only [truncResult]
        rw [hr1p, hbp]
      · split
        · show u.players.getD i dummyPlayer =
            resetRound (st.players.getD i dummyPlayer)
          rw [hsh, hr3, hr2, hr1p, hbp]
        · simp only [showdownResult, runPayouts]
          have hiwin : i ∉ u.winners := fun h => hbact (hswin i h)
          have hpay := (payoutLoop_untouched (t.pot / (u.winners.length : ℚ))
            u.winners.length u.winners u.players st.wins 0
            (List.replicate u.players.length 0) hiwin).1
          split
          · split
            · rw [hpay, hsh, hr3, hr2, hr1p, hbp]
            · rw [redistribute_untouched _ _ _ hr1pf, hpay, hsh, hr3, hr2,
                hr1p, hbp]
          · rw [hpay, hsh, hr3, hr2, hr1p, hbp]

/-- C4 (amended): in rounds 2 and 3 every applied bet is the raw strategy
value clamped into the documented multiplicative band of the player's own
prior-round bet and then capped at the player's pre-round stack; hence each
bet never exceeds the upper band bound or the pre-round stack, but —
contrary to the original claim — the stack cap can push the applied bet
below the lower band bound. -/
theorem c4_bet_clamp (env : Env) (g : ℕ) (st : MatchState) (i : ℕ)
    (hst : ∀ p ∈ st.players, 0 ≤ p.stack)
    (hkind : (playHand env g st).2.kind = HandKind.showdown)
    (hmem : i ∈ (playHand env g st).2.r1postFold) :
    (∃ val : ℚ, (playHand env g st).2.r2bets.getD i 0 =
      min (max ((playHand env g st).2.r1bets.getD i 0 * (1 / 2))
        (min ((playHand env g st).2.r1bets.getD i 0 * (3 / 2)) val))
        ((playHand env g st).2.stacksAfterR1.getD i 0)) ∧
    (playHand env g st).2.r2bets.getD i 0 ≤
      (playHand env g st).2.r1bets.getD i 0 * (3 / 2) ∧
    (playHand env g st).2.r2bets.getD i 0 ≤
      (playHand env g st).2.stacksAfterR1.getD i 0 ∧
    (∃ val : ℚ, (playHand env g st).2.r3bets.getD i 0 =
      min (max ((playHand env g st).2.r2bets.getD i 0 * (3 / 4))
        (min ((playHand env g st).2.r2bets.getD i 0 * (5 / 4)) val))
        ((playHand env g st).2.stacksBeforeR3.getD i 0)) ∧
    (playHand env g st).2.r3bets.getD i 0 ≤
      (playHand env g st).2.r2bets.getD i 0 * (5 / 4) ∧
    (playHand env g st).2.r3bets.getD i 0 ≤
      (playHand env g st).2.stacksBeforeR3.getD i 0 := by
  obtain ⟨a, hA⟩ : ∃ a, buyInStage env g st = a := ⟨_, rfl⟩
  obtain ⟨r, hR⟩ : ∃ r, r1Stage env g st.players.length a = r := ⟨_, rfl⟩
  have hb := buyInStage_facts env g st hst
  rw [hA] at hb
  obtain ⟨hblen, hbpot, hbclean, hbsub, hbcomm⟩ := hb
  have h1 := r1Stage_facts env g st.players.length a hbclean hbpot hblen
  rw [hR] at h1
  obtain ⟨h1len, h1blen, h1NN, h1pot, h1sub, h1post, h1ag, h1stk⟩ := h1
  have hnodup : r.postFold.Nodup :=
    (h1post.trans (h1sub.trans hbsub)).nodup (List.nodup_range _)
  have h2 := r2Stage_facts env g st.players.length a r h1NN h1pot
  have h2at := fun (hi : i ∈ r.postFold) (hl : i < r.players.length)
      (hb2 : i < st.players.length) =>
    r2Stage_at env g st.players.length a r hnodup hi hl hb2
  obtain ⟨s, hS⟩ : ∃ s, r2Stage env g st.players.length a r = s := ⟨_, rfl⟩
  rw [hS] at h2 h2at
  obtain ⟨h2len, h2blen, h2NN, h2pot⟩ := h2
  have h3at := fun (hi : i ∈ r.postFold) (hl : i < s.players.length)
      (hb3 : i < st.players.length) =>
    r3Stage_at env g st.players.length a r s hnodup hi hl hb3
  obtain ⟨t, hT⟩ : ∃ t, r3Stage env g st.players.length a r s = t := ⟨_, rfl⟩
  rw [hT] at h3at
  obtain ⟨u, hU⟩ : ∃ u, showStage env a t = u := ⟨_, rfl⟩
  rw [playHand_cases env g st a r hA hR,
    lateResult_cases env g st st.players.length a r s t u hS hT hU] at hkind hmem ⊢
  revert hkind hmem
  split
  · intro _ hk
    simp [emptyObs] at hk
  · split
    · intro _ hk
      simp [earlyResult] at hk
    · split
      · intro _ hk
        simp [truncResult] at hk
      · split
        · intro _ hk
          simp [emptyObs] at hk
        · intro hmem _
          simp only [showdownResult] at hmem ⊢
          have hilt : i < st.players.length :=
            List.mem_range.1 (hbsub.subset (h1sub.subset (h1post.subset hmem)))
          have hilr : i < r.players.length := by rw [h1len]; exact hilt
          have hils : i < s.players.length := by rw [h2len]; exact hilr
          obtain ⟨p2, ⟨v2, hv2⟩, hb2, hc2, hs2⟩ := h2at hmem hilr hilt
          obtain ⟨p3, ⟨v3, hv3⟩, hb3, hc3, hs3⟩ := h3at hmem hils hilt
          have h1r : (r.players.getD i dummyPlayer).current_bet_r1 =
              r.r1bets.getD i 0 := h1ag i
          have h1nn : 0 ≤ (r.players.getD i dummyPlayer).current_bet_r1 :=
            (h1NN i).2.1
          have h2nn : 0 ≤ (s.players.getD i dummyPlayer).current_bet_r2 :=
            (h2NN i).2.2.1
          have hstk2 : (r.players.getD i dummyPlayer).stack =
              r.stacksAfterR1.getD i 0 := by
            rw [h1stk, getD_map _ _ hilr]
          have hstk3 : (s.players.getD i dummyPlayer).stack =
              (s.players.map (fun x => x.stack)).getD i 0 := by
            rw [getD_map _ _ hils]
          refine ⟨⟨v2, ?_⟩, ?_, ?_, ⟨v3, ?_⟩, ?_, ?_⟩
          · rw [hb2, hv2, h1r, hstk2]
          · rw [hb2, hv2, h1r]
            refine le_trans (min_le_left _ _) (max_le ?_ (min_le_left _ _))
            rw [← h1r]
            linarith
          · rw [hb2, hv2, hstk2]
            exact min_le_right _ _
          · rw [hb3, hv3, hc2, hb2, hstk3]
          · rw [hb3, hv3, hc2, hb2]
            refine le_trans (min_le_left _ _) (max_le ?_ (min_le_left _ _))
            rw [← hc2]
            linarith
          · rw [hb3, hv3, hstk3]
            exact min_le_right _ _

/-- C6: the equity estimator is the average of the per-trial contributions
(1 for a strict win, 1/2 for a tie with the best opponent, 0 otherwise)
over the trials that actually ran — a trial the unknown-card pool cannot
supply is skipped — and it returns 0 when no trial ran or none was
requested.  (The code divides by the requested iteration count, but the
skip check does not depend on the trial, so either every trial runs or
none does and the two denominators agree.) -/
theorem c6_equity_estimator (evalFive : List Card → ℕ)
    (shuffle : ℕ → List Card → List Card) (hero_hand current_board : List Card)
    (num_players iterations : ℕ)
    (hshuf : ∀ u d, (shuffle u d).length = d.length) :
    (equityTrialsRun evalFive shuffle hero_hand current_board num_players
        iterations ≠ 0 →
      calculate_multiplayer_equity evalFive shuffle hero_hand current_board
          num_players iterations =
        equityContribSum evalFive shuffle hero_hand current_board num_players
            iterations /
          (equityTrialsRun evalFive shuffle hero_hand current_board num_players
            iterations : ℚ)) ∧
    (equityTrialsRun evalFive shuffle hero_hand current_board num_players
        iterations = 0 →
      calculate_multiplayer_equity evalFive shuffle hero_hand current_board
        num_players iterations = 0) ∧
    (iterations = 0 →
      calculate_multiplayer_equity evalFive shuffle hero_hand current_board
        num_players iterations = 0) := by
  by_cases hcond : 5 - (current_board.length : ℤ) +
      2 * ((num_players : ℤ) - 1) >
      ((remainingDeckOf hero_hand current_board).length : ℤ)
  · obtain ⟨hrun, hsum⟩ := equity_all_skip evalFive shuffle hero_hand
      current_board num_players iterations hshuf hcond
    refine ⟨fun h => absurd hrun h, fun _ => ?_, fun h => ?_⟩
    · rw [calculate_multiplayer_equity_eq]
      split
      · rfl
      · rw [hsum]
        norm_num
    · rw [calculate_multiplayer_equity_eq, if_pos h]
  · have hrun := equity_all_run evalFive shuffle hero_hand current_board
      num_players iterations hshuf hcond
    refine ⟨fun h => ?_, fun h => ?_, fun h => ?_⟩
    · rw [hrun] at h ⊢
      rw [calculate_multiplayer_equity_eq, if_neg h,
        mul_div_cancel_right₀ _ (by norm_num : (100 : ℚ) ≠ 0)]
    · rw [hrun] at h
      rw [calculate_multiplayer_equity_eq, if_pos h]
    · rw [calculate_multiplayer_equity_eq, if_pos h]

/-- C9: with a single player (zero opponents), a treys-bounded oracle, a
two-card hero hand, a board of at most 5 cards and at least one requested
trial, the estimator returns exactly 1. -/
theorem c9_zero_opponents (evalFive : List Card → ℕ)
    (shuffle : ℕ → List Card → List Card) (hero_hand current_board : List Card)
    (iterations : ℕ) (hshuf : ∀ u d, (shuffle u d).length = d.length)
    (hb : ∀ cs, evalFive cs ≤ 7462) (hh2 : hero_hand.length = 2)
    (hcb : current_board.length ≤ 5) (hit : iterations ≠ 0) :
    calculate_multiplayer_equity evalFive shuffle hero_hand current_board 1
      iterations = 1 := by
  have hrdlen := remainingDeckOf_length hero_hand current_board
  have hrd : 5 - (current_board.length : ℤ) ≤
      ((remainingDeckOf hero_hand current_board).length : ℤ) := by
    omega
  have htrial : ∀ u : ℕ, equityTrial evalFive shuffle hero_hand current_board
      (remainingDeckOf hero_hand current_board) ((1 : ℕ) - 1 : ℤ) u = some 1 := by
    intro u
    have h0 : (((1 : ℕ) : ℤ) - 1 : ℤ) = 0 := by norm_num
    rw [h0]
    exact equityTrial_no_opponents evalFive shuffle hero_hand current_board _ u
      hshuf hb hh2 hcb hrd
  rw [calculate_multiplayer_equity_eq, if_neg hit]
  have hsum : equityContribSum evalFive shuffle hero_hand current_board 1
      iterations = iterations := by
    simp only [equityContribSum]
    have hmap : ∀ b ∈ (List.range iterations).map (fun u =>
        (equityTrial evalFive shuffle hero_hand current_board
          (remainingDeckOf hero_hand current_board) ((1 : ℕ) - 1 : ℤ) u).getD 0),
        b = (1 : ℚ) := by
      intro b hb2
      obtain ⟨u, hu, rfl⟩ := List.mem_map.1 hb2
      rw [htrial u]
      rfl
    rw [List.eq_replicate_of_mem hmap, List.sum_replicate]
    simp
  rw [hsum, div_self (by exact_mod_cast hit : (iterations : ℚ) ≠ 0)]
  norm_num

/-- Refutation of C1 as stated: game 1 of `cexFoldEnv` completes (truncated
path, history entry written) with a pot of 500 yet pays out nothing and
redistributes nothing. -/
theorem c1_counterexample :
    ¬ ∀ (env : Env) (k : ℕ), handCompleted env k = true →
      (handObs env k).payoutTotal + (handObs env k).redistributed =
        (handObs env k).potFinal := by
  intro h
  exact absurd (h cexFoldEnv 0 (by with_unfolding_all decide))
    (by with_unfolding_all decide)

/-- Refutation of C2 as stated: in game 8 of `cexEnv` seat 0 is eliminated
at the round-1 affordability check (so is not in the round-2 survivor set
[1, 2]) yet wins the showdown. -/
theorem c2_counterexample :
    ¬ ∀ (env : Env) (k : ℕ), (handObs env k).kind = HandKind.showdown →
      ∀ w ∈ (handObs env k).winners, w ∈ (handObs env k).r1postFold := by
  intro h
  exact absurd (h cexEnv 7 (by with_unfolding_all decide) 0
    (by with_unfolding_all decide)) (by with_unfolding_all decide)

/-- Refutation of C3 as stated: after game 8 of `cexEnv` seat 0 is marked
eliminated but holds a stack of 400 (its showdown winnings). -/
theorem c3_counterexample :
    ¬ ∀ (env : Env) (k i : ℕ),
      ((reach env k).1.players.getD i dummyPlayer).is_lost_match = true →
      ((reach env k).1.players.getD i dummyPlayer).stack = 0 := by
  intro h
  exact absurd (h cexEnv 8 0 (by with_unfolding_all decide))
    (by with_unfolding_all decide)

/-- Refutation of C4 as stated: in game 8 of `cexEnv` seat 1 bet 300 in
round 1 but enters round 2 with a stack of 140, so the applied round-2 bet
140 falls below the documented lower bound 150. -/
theorem c4_counterexample :
    ¬ ∀ (env : Env) (k i : ℕ), (handObs env k).kind = HandKind.showdown →
      i ∈ (handObs env k).r1postFold →
      (handObs env k).r1bets.getD i 0 * (1 / 2) ≤
        (handObs env k).r2bets.getD i 0 := by
  intro h
  exact absurd (h cexEnv 7 1 (by with_unfolding_all decide)
    (by with_unfolding_all decide)) (by with_unfolding_all decide)

/-- Witness for C1 at game 1 of `wShowEnv` (a showdown hand). -/
theorem c1_witness :
    (∀ p ∈ initState.players, 0 ≤ p.stack) ∧
      (playHand wShowEnv 1 initState).2.kind = HandKind.showdown ∧
      (playHand wShowEnv 1 initState).2.payoutTotal ≤
        (playHand wShowEnv 1 initState).2.potFinal :=
  ⟨by with_unfolding_all decide, by with_unfolding_all decide,
    (c1_payout_accounting wShowEnv 1 initState (by with_unfolding_all decide)
      (Or.inr (Or.inr (by with_unfolding_all decide)))).1⟩

/-- Witness for C2 at game 1 of `wShowEnv`. -/
theorem c2_witness :
    (playHand wShowEnv 1 initState).2.kind = HandKind.showdown ∧
      ((∀ w ∈ (playHand wShowEnv 1 initState).2.winners,
        w ∈ (playHand wShowEnv 1 initState).2.active) ∧
       (playHand wShowEnv 1 initState).2.r1postFold ≠ []) :=
  ⟨by with_unfolding_all decide,
    c2_showdown_winner_set wShowEnv 1 initState (by with_unfolding_all decide)⟩

/-- Witness for C3 (amended) at seat 0 of `wLostState`. -/
theorem c3_witness :
    (wLostState.players.getD 0 dummyPlayer).is_lost_match = true ∧
      (playHand wShowEnv 1 wLostState).1.players.getD 0 dummyPlayer =
        resetRound (wLostState.players.getD 0 dummyPlayer) :=
  ⟨by with_unfolding_all decide,
    c3_eliminated_inert wShowEnv 1 wLostState 0 (by with_unfolding_all decide)⟩

/-- Witness for C4 (amended) at seat 0 of game 1 of `wShowEnv`. -/
theorem c4_witness :
    (playHand wShowEnv 1 initState).2.kind = HandKind.showdown ∧
      0 ∈ (playHand wShowEnv 1 initState).2.r1postFold ∧
      (playHand wShowEnv 1 initState).2.r2bets.getD 0 0 ≤
        (playHand wShowEnv 1 initState).2.r1bets.getD 0 0 * (3 / 2) :=
  ⟨by with_unfolding_all decide, by with_unfolding_all decide,
    (c4_bet_clamp wShowEnv 1 initState 0 (by with_unfolding_all decide)
      (by with_unfolding_all decide) (by with_unfolding_all decide)).2.1⟩

/-- Witness for C5 on a one-winner payout. -/
theorem c5_witness :
    ([0] : List ℕ).Nodup ∧ 0 ∈ ([0] : List ℕ) ∧ 0 < [initPlayer].length ∧
      (runPayouts 100 [0] [initPlayer] [0]).2.2.2.getD 0 0 ≤
        4 * (BUY_IN + ([initPlayer].getD 0 dummyPlayer).current_bet_r1 +
          ([initPlayer].getD 0 dummyPlayer).current_bet_r2 +
          ([initPlayer].getD 0 dummyPlayer).final_round_bet) :=
  ⟨by decide, by decide, by decide,
    (@c5_payout_cap 100 [0] [initPlayer] [0] (by decide) 0 (by decide)
      (by decide)).2.2⟩

/-- Witness for C6 with the identity shuffle, a constant oracle, one
opponent and one requested trial. -/
theorem c6_witness :
    (∀ (u : ℕ) (d : List Card),
      ((fun (_ : ℕ) (d2 : List Card) => d2) u d).length = d.length) ∧
      (equityTrialsRun (fun _ => 1) (fun _ d2 => d2) ["Ah", "Ad"] [] 2 1 ≠ 0 →
        calculate_multiplayer_equity (fun _ => 1) (fun _ d2 => d2)
            ["Ah", "Ad"] [] 2 1 =
          equityContribSum (fun _ => 1) (fun _ d2 => d2) ["Ah", "Ad"] [] 2 1 /
            (equityTrialsRun (fun _ => 1) (fun _ d2 => d2)
              ["Ah", "Ad"] [] 2 1 : ℚ)) :=
  ⟨fun _ _ => rfl,
    (c6_equity_estimator (fun _ => 1) (fun _ d2 => d2) ["Ah", "Ad"] [] 2 1
      (fun _ _ => rfl)).1⟩

/-- Witness for C7 at game 1 of `wEarlyEnv` (seats 1-4 fold round 1). -/
theorem c7_witness :
    (∀ p ∈ initState.players, 0 ≤ p.stack) ∧
      (playHand wEarlyEnv 1 initState).2.kind = HandKind.early ∧
      ∃ w : ℕ,
        (playHand wEarlyEnv 1 initState).2.winners = [w] ∧
        (playHand wEarlyEnv 1 initState).2.r1postFold = [w] ∧
        (playHand wEarlyEnv 1 initState).2.payoutTotal =
          min ((playHand wEarlyEnv 1 initState).2.potFinal)
            (4 * (BUY_IN + (playHand wEarlyEnv 1 initState).2.r1bets.getD w 0)) ∧
        ((playHand wEarlyEnv 1 initState).1.players.getD w dummyPlayer).stack =
          (playHand wEarlyEnv 1 initState).2.stacksAfterR1.getD w 0 +
            (playHand wEarlyEnv 1 initState).2.payoutTotal ∧
        (playHand wEarlyEnv 1 initState).1.wins =
          initState.wins.set w (initState.wins.getD w 0 + 1) ∧
        (∃ e : HandHistory,
          (playHand wEarlyEnv 1 initState).1.history =
            initState.history ++ [e] ∧
          e.community_cards =
            (playHand wEarlyEnv 1 initState).2.board.take 3) ∧
        (playHand wEarlyEnv 1 initState).2.board.length = 5 :=
  ⟨by with_unfolding_all decide, by with_unfolding_all decide,
    c7_early_win wEarlyEnv 1 initState (by with_unfolding_all decide)
      (by with_unfolding_all decide)⟩

/-- Witness for C8 at game 1 of `wShowEnv`. -/
theorem c8_witness :
    (∀ p ∈ initState.players, 0 ≤ p.stack) ∧
      ∀ p ∈ (playHand wShowEnv 1 initState).1.players, 0 ≤ p.stack :=
  ⟨by with_unfolding_all decide,
    c8_stack_nonneg wShowEnv 1 initState (by with_unfolding_all decide)⟩

/-- Witness for C9 with the identity shuffle, a constant oracle and one
trial. -/
theorem c9_witness :
    calculate_multiplayer_equity (fun _ => 1) (fun _ d2 => d2)
      ["Ah", "Ad"] [] 1 1 = 1 :=
  c9_zero_opponents (fun _ => 1) (fun _ d2 => d2) ["Ah", "Ad"] [] 1
    (fun _ _ => rfl) (fun _ => by norm_num) rfl (by norm_num) (by norm_num)

/-- Witness for C10: game 1 from `wPoorState` halts (only seat 0 can pay),
and `wHaltEnv` really reaches the halted flag at game 16 after which the
state is frozen. -/
theorem c10_witness :
    (buyInStage wShowEnv 1 wPoorState).active.length < 2 ∧
      (playHand wShowEnv 1 wPoorState).2.kind = HandKind.halted ∧
      reach wHaltEnv (16 + 3) = reach wHaltEnv 16 :=
  ⟨by with_unfolding_all decide,
    ((c10_halt_no_refund wShowEnv 1 wPoorState
      (by with_unfolding_all decide)).1).1,
    (c10_halt_no_refund wShowEnv 1 wPoorState
      (by with_unfolding_all decide)).2 wHaltEnv 16 3
      (by with_unfolding_all decide)⟩
